import Mathlib

/-!
# The scene reader of `raycaster.c`

A shallow embedding of the character-level scanner, of `read_scene` and of
`main` (`src/raycaster.c`), followed by the properties proved about them.

* Characters are the `int` values `fgetc` delivers for a byte, kept as `Nat`;
  end of file is the absence of a next character.
* The open file `json`, the global `line` and what has been written to the
  error stream form the `State` threaded through every function.
* `exit(1)` is the outcome `Res.exit`, carrying the message printed just
  before the call.
* The two `while (1)` loops of `read_scene` recurse on a step budget, one
  unit a round; the outcome `Res.unfinished` says the budget ran out with
  the loop still running. A result is stated for every budget from some
  bound on, and a loop that never ends as `Res.unfinished` for every budget.
* Character codes used below: 34 double quote, 44 comma, 58 colon, 91 and 93
  square brackets, 92 backslash, 123 and 125 braces, 10 newline.
-/

namespace Raycaster

/-! ## Characters -/

/-- The character codes of a text, as `fgetc` delivers them. -/
def bytes (t : String) : List Nat := t.toList.map Char.toNat

/-- The C library `isspace` in the "C" locale: space, `\t`, `\n`, `\v`, `\f`, `\r`. -/
def isspace (c : Nat) : Bool := c == 32 || (9 ≤ c && c ≤ 13)

/-- The C library `isdigit`. -/
def isdigit (c : Nat) : Bool := 48 ≤ c && c ≤ 57

/-- Number of newline characters in a text. -/
def newlines (t : List Nat) : Nat := t.count 10

/-! ## Messages, state and outcomes -/

/-- The messages the program prints on the error stream, one constructor per
`fprintf(stderr, ...)` of the parser, named after the error kind it stands for. -/
inductive Diag where
  /-- `Error: Unexpected end of file on line number %d.` (next_c) -/
  | UnexpectedEndOfInput (line : Nat)
  /-- `Error: Expected '%c' on line %d.` (expect_c) -/
  | SyntaxError (expected : Nat) (line : Nat)
  /-- `Error: Expected string on line %d.` (next_string) -/
  | ExpectedString (line : Nat)
  /-- `Error: Strings longer than 128 characters in length are not supported.` -/
  | StringTooLong
  /-- `Error: Strings with escape codes are not supported.` -/
  | UnsupportedEscape
  /-- `Error: Strings may contain only ascii characters.` -/
  | NonAsciiCharacter
  /-- `Error: Could not open file "%s"` -/
  | IoError
  /-- `Error: This is the worst scene file EVER.` -/
  | EmptySceneError
  /-- `Error: Expected "type" key on line number %d.` -/
  | MissingTypeKey (line : Nat)
  /-- `Error: Unknown type, "%s", on line number %d.` -/
  | UnknownType (value : List Nat) (line : Nat)
  /-- `Error: Unknown property, "%s", on line %d.` -/
  | UnknownProperty (key : List Nat) (line : Nat)
  /-- `Error: Unexpected value on line %d` -/
  | UnexpectedValue (line : Nat)
  /-- `Error: Expecting ',' or ']' on line %d.` -/
  | ExpectedCommaOrBracket (line : Nat)
  deriving DecidableEq, Repr

/-- What the parser reads and writes: the unread characters of the file
`json` (a character pushed back by `ungetc` is put in front), the global
`line`, and the messages printed so far that did not end the process. -/
structure State where
  json : List Nat
  line : Nat
  stderr : List Diag
  deriving DecidableEq, Repr

/-- Outcome of running a function of the program from a state. -/
inductive Res (α : Type) where
  /-- The function returned `v`, leaving the state `s`. -/
  | ok (v : α) (s : State)
  /-- The function printed `d` and called `exit(1)` in the state `s`. -/
  | exit (d : Diag) (s : State)
  /-- The step budget ran out while a `while (1)` loop was still running. -/
  | unfinished
  deriving DecidableEq, Repr

/-- A function of the program: from a state to an outcome. -/
def M (α : Type) : Type := State → Res α

/-- Sequencing: the second function runs only when the first returned. -/
def M.bind {α β : Type} (x : M α) (f : α → M β) : M β := fun s =>
  match x s with
  | Res.ok v s1 => f v s1
  | Res.exit d s1 => Res.exit d s1
  | Res.unfinished => Res.unfinished

instance : Monad M where
  pure v := fun s => Res.ok v s
  bind := M.bind

/-- Prints a message carrying the current `line` and calls `exit(1)`. -/
def die {α : Type} (msg : Nat → Diag) : M α := fun s => Res.exit (msg s.line) s

/-- Prints a message carrying the current `line` and goes on. -/
def report (msg : Nat → Diag) : M Unit := fun s =>
  Res.ok () { s with stderr := s.stderr ++ [msg s.line] }

/-! ## Scanner (lines 14-81) -/

/-- The C library `fgetc`: the next character, or `none` for `EOF`. -/
def fgetc : M (Option Nat) := fun s =>
  match s.json with
  | [] => Res.ok none s
  | c :: rest => Res.ok (some c) { s with json := rest }

/-- The C library `ungetc`: pushes `c` back in front of the unread input. -/
def ungetc (c : Nat) : M Unit := fun s => Res.ok () { s with json := c :: s.json }

/-- `next_c` (lines 14-27): reads one character, counts a newline, and ends
the process at end of file. -/
def next_c : M Nat := fun s =>
  match s.json with
  | [] => Res.exit (Diag.UnexpectedEndOfInput s.line) s
  | c :: rest =>
    Res.ok c { s with json := rest, line := s.line + (if c = 10 then 1 else 0) }

/-- `expect_c` (lines 66-71). -/
def expect_c (d : Nat) : M Unit := do
  let c ← next_c
  if c = d then pure () else die (Diag.SyntaxError d)

/-- The loop of `skip_ws` (lines 77-80) with `c` the character in hand:
`while (isspace(c)) c = next_c(json); ungetc(c, json);`, by recursion on the
unread input, with `next_c` written out on its two cases. -/
def skip_ws_loop : Nat → List Nat → Nat → List Diag → Res Unit
  | c, [], line, err =>
    if isspace c then Res.exit (Diag.UnexpectedEndOfInput line) ⟨[], line, err⟩
    else Res.ok () ⟨[c], line, err⟩
  | c, c1 :: rest, line, err =>
    if isspace c then skip_ws_loop c1 rest (line + (if c1 = 10 then 1 else 0)) err
    else Res.ok () ⟨c :: c1 :: rest, line, err⟩

/-- `skip_ws` (lines 75-81). -/
def skip_ws : M Unit := fun s =>
  match next_c s with
  | Res.ok c s1 => skip_ws_loop c s1.json s1.line s1.stderr
  | Res.exit d s1 => Res.exit d s1
  | Res.unfinished => Res.unfinished

/-! ## Lexical primitives (lines 88-148) -/

/-- The C library `strdup` on a buffer: the characters before the first `0`. -/
def strdup (buffer : List Nat) : List Nat := buffer.takeWhile (fun c => c != 0)

/-- The loop of `next_string` (lines 97-115) with `c` the character in hand,
`i` the write index and `buffer` the `i` characters written so far, by
recursion on the unread input, with `next_c` written out on its two cases;
34 is the double quote and 92 the backslash. -/
def next_string_loop : Nat → Nat → List Nat → List Nat → Nat → List Diag → Res (List Nat)
  | c, i, buffer, [], line, err =>
    if c = 34 then Res.ok (strdup buffer) ⟨[], line, err⟩
    else if i ≥ 128 then Res.exit Diag.StringTooLong ⟨[], line, err⟩
    else if c = 92 then Res.exit Diag.UnsupportedEscape ⟨[], line, err⟩
    else if c < 32 ∨ c > 126 then Res.exit Diag.NonAsciiCharacter ⟨[], line, err⟩
    else Res.exit (Diag.UnexpectedEndOfInput line) ⟨[], line, err⟩
  | c, i, buffer, c1 :: rest, line, err =>
    if c = 34 then Res.ok (strdup buffer) ⟨c1 :: rest, line, err⟩
    else if i ≥ 128 then Res.exit Diag.StringTooLong ⟨c1 :: rest, line, err⟩
    else if c = 92 then Res.exit Diag.UnsupportedEscape ⟨c1 :: rest, line, err⟩
    else if c < 32 ∨ c > 126 then Res.exit Diag.NonAsciiCharacter ⟨c1 :: rest, line, err⟩
    else next_string_loop c1 (i + 1) (buffer ++ [c]) rest
      (line + (if c1 = 10 then 1 else 0)) err

/-- `next_string` (lines 88-116); 34 is the double quote. -/
def next_string : M (List Nat) := fun s =>
  match next_c s with
  | Res.ok c s1 =>
    if c ≠ 34 then Res.exit (Diag.ExpectedString s1.line) s1
    else
      match next_c s1 with
      | Res.ok c2 s2 => next_string_loop c2 0 [] s2.json s2.line s2.stderr
      | Res.exit d s2 => Res.exit d s2
      | Res.unfinished => Res.unfinished
  | Res.exit d s1 => Res.exit d s1
  | Res.unfinished => Res.unfinished

/-- What a number read leaves in the `double` it hands back. The conversion
`"%f"` of line 123 stores a `float`, four bytes, through the pointer to the
eight-byte `value`: after a match, part of `value` holds the float made from
the text matched and the rest of it is unassigned; without a match all of it
is unassigned. In neither case is the number handed back determined by the
text read, and nothing below says what it is. -/
inductive Value where
  /-- No byte of the double was assigned. -/
  | indeterminate
  /-- Four of the eight bytes hold the `float` converted from `text`; the
  others were not assigned. -/
  | float_stored (text : List Nat)
  deriving DecidableEq, Repr

/-- An optional `+` (43) or `-` (45) in front of the unread input. -/
def take_sign : List Nat → List Nat × List Nat
  | [] => ([], [])
  | c :: rest => if c = 43 ∨ c = 45 then ([c], rest) else ([], c :: rest)

/-- An optional `.` (46) in front of the unread input. -/
def take_point : List Nat → List Nat × List Nat
  | [] => ([], [])
  | c :: rest => if c = 46 then ([c], rest) else ([], c :: rest)

/-- Modelled from the spec: `fscanf(json, "%f", &value)` is C library code,
not part of the repository. After skipping white space it reads the longest
run of characters that is a decimal floating literal or the beginning of one
(sign, digits with an optional point, exponent), leaves the rest unread, and
assigns only when what it read is a whole literal. It neither counts lines
nor prints. Gives the matched text, if any, and the unread input; 101 and
69 are `e` and `E`. The other forms the library accepts,
hexadecimal numbers, infinities and NaN, are not modelled: where a number is
expected and the text begins, after an optional sign, with `0x`, `0X` or
the letters of `inf` or `nan` in either case, the library reads further than
this definition does. -/
def scan_float (input : List Nat) : Option (List Nat) × List Nat :=
  let r0 := input.dropWhile isspace
  let sg := (take_sign r0).1
  let r1 := (take_sign r0).2
  let ip := r1.takeWhile isdigit
  let r2 := r1.dropWhile isdigit
  let pt := (take_point r2).1
  let r3 := (take_point r2).2
  let fp := if pt = [] then [] else r3.takeWhile isdigit
  let r4 := if pt = [] then r3 else r3.dropWhile isdigit
  if ip = [] ∧ fp = [] then (none, r4)
  else
    match r4 with
    | [] => (some (sg ++ ip ++ pt ++ fp), [])
    | e :: t =>
      if e = 101 ∨ e = 69 then
        let es := (take_sign t).1
        let r5 := (take_sign t).2
        let ed := r5.takeWhile isdigit
        let r6 := r5.dropWhile isdigit
        if ed = [] then (none, r6)
        else (some (sg ++ ip ++ pt ++ fp ++ e :: es ++ ed), r6)
      else (some (sg ++ ip ++ pt ++ fp), e :: t)

/-- `next_number` (lines 121-126): the result of `fscanf` is not looked at,
and `value` is returned whether or not it was assigned, and however much of
it was (see `Value`). -/
def next_number : M Value := fun s =>
  match scan_float s.json with
  | (some text, rest) => Res.ok (Value.float_stored text) { s with json := rest }
  | (none, rest) => Res.ok Value.indeterminate { s with json := rest }

/-- `next_vector` (lines 132-148); `malloc` is taken to succeed. -/
def next_vector : M (Value × Value × Value) := do
  expect_c 91 -- '['
  skip_ws
  let v0 ← next_number
  skip_ws
  expect_c 44 -- ','
  skip_ws
  let v1 ← next_number
  skip_ws
  expect_c 44 -- ','
  skip_ws
  let v2 ← next_number
  skip_ws
  expect_c 93 -- ']'
  pure (v0, v1, v2)

/-! ## The scene reader (lines 154-254) -/

/-- The property dispatch of lines 221-233: a number for `width`, `height`
and `radius`, a vector for `color`, `position` and `normal`, and for any
other key a message, after which nothing is read. The value read is dropped,
as the source drops it. -/
def read_value (key : List Nat) : M Unit :=
  if key = bytes "width" ∨ key = bytes "height" ∨ key = bytes "radius" then do
    let _ ← next_number
    pure ()
  else if key = bytes "color" ∨ key = bytes "position" ∨ key = bytes "normal" then do
    let _ ← next_vector
    pure ()
  else report (Diag.UnknownProperty key)

/-- The inner `while (1)` of `read_scene` (lines 208-239): the properties of
an object up to its closing brace. -/
def read_fields : Nat → M Unit
  | 0 => fun _ => Res.unfinished
  | fuel + 1 => do
    let c ← next_c
    if c = 125 then pure () -- '}'
    else if c = 44 then do -- ','
      skip_ws
      let key ← next_string
      skip_ws
      expect_c 58 -- ':'
      skip_ws
      read_value key
      skip_ws
      read_fields fuel
    else die Diag.UnexpectedValue

/-- Lines 196-204: the value of the `type` key and its check. -/
def read_type : M Unit := do
  let value ← next_string
  if value = bytes "camera" then pure ()
  else if value = bytes "sphere" then pure ()
  else if value = bytes "plane" then pure ()
  else die (Diag.UnknownType value)

/-- The outer `while (1)` of `read_scene` (lines 173-253). The character at
the head of each round is read with `fgetc`, not `next_c`. `fclose` has no
effect on the state. -/
def read_objects : Nat → M Unit
  | 0 => fun _ => Res.unfinished
  | fuel + 1 => do
    let c ← fgetc
    if c = some 93 then report (fun _ => Diag.EmptySceneError) -- ']'
    else if c = some 123 then do -- '{'
      skip_ws
      let key ← next_string
      if key ≠ bytes "type" then die Diag.MissingTypeKey
      else do
        skip_ws
        expect_c 58 -- ':'
        skip_ws
        read_type
        skip_ws
        read_fields fuel
        skip_ws
        let c ← next_c
        if c = 44 then do -- ','
          skip_ws
          read_objects fuel
        else if c = 93 then pure () -- ']'
        else die Diag.ExpectedCommaOrBracket
    else read_objects fuel

/-- `read_scene` (lines 154-254) on a file that holds `contents`, or that
cannot be opened (`none`), from the initial value 1 of `line`; `fuel` bounds
the rounds of its loops. -/
def read_scene (fuel : Nat) (contents : Option (List Nat)) : Res Unit :=
  match contents with
  | none => Res.exit Diag.IoError ⟨[], 1, []⟩
  | some input =>
    (do
      skip_ws
      expect_c 91 -- '['
      skip_ws
      read_objects fuel : M Unit) ⟨input, 1, []⟩

/-! ## Vocabulary of the properties -/

/-- A run of white space. -/
def is_ws (w : List Nat) : Bool := w.all isspace

/-- The characters a string may hold: printable, not a backslash, not a quote. -/
def is_text (b : List Nat) : Bool :=
  b.all (fun c => decide (32 ≤ c) && decide (c ≤ 126) && (c != 92) && (c != 34))

/-- A string literal: the body between two double quotes. -/
def quoted (b : List Nat) : List Nat := 34 :: (b ++ [34])

/-- Reads a character and enters the loop of `next_string` with it
(lines 95-97 for `i = 0`, line 112 and the loop test afterwards). -/
def string_rest (i : Nat) (buffer : List Nat) : M (List Nat) := fun s =>
  match next_c s with
  | Res.ok c s1 => next_string_loop c i buffer s1.json s1.line s1.stderr
  | Res.exit d s1 => Res.exit d s1
  | Res.unfinished => Res.unfinished

/-- A decimal floating literal by its parts: an optional sign, digits with an
optional point, and an optional exponent made of a mark (`e` or `E`), an
optional sign and digits. -/
structure NumLit where
  sign : List Nat
  int : List Nat
  point : List Nat
  frac : List Nat
  mark : List Nat
  esign : List Nat
  edigits : List Nat
  deriving DecidableEq, Repr

/-- The characters of a literal. -/
def NumLit.text (n : NumLit) : List Nat :=
  n.sign ++ (n.int ++ (n.point ++ (n.frac ++ (n.mark ++ (n.esign ++ n.edigits)))))

/-- Nothing, `+` or `-`. -/
def is_sign (t : List Nat) : Bool := t == [] || t == [43] || t == [45]

/-- The parts form a literal: the sign is optional, a digit stands before or
after the point, digits follow a point only, and an exponent, when there is
one, has a mark and at least one digit. -/
def NumLit.wf (n : NumLit) : Bool :=
  is_sign n.sign && n.int.all isdigit && (n.point == [] || n.point == [46]) &&
  n.frac.all isdigit && (n.point != [] || n.frac == []) &&
  (n.int != [] || n.frac != []) &&
  ((n.mark == [] && n.esign == [] && n.edigits == []) ||
   ((n.mark == [101] || n.mark == [69]) && is_sign n.esign &&
     n.edigits.all isdigit && n.edigits != []))

/-- A character that cannot continue a literal: no digit, point or exponent mark. -/
def is_delim (d : Nat) : Bool := !isdigit d && d != 46 && d != 101 && d != 69

/-- What `scan_float` does once the mantissa is read. -/
def scan_exponent (m x : List Nat) : Option (List Nat) × List Nat :=
  match x with
  | [] => (some m, [])
  | e :: t =>
    if e = 101 ∨ e = 69 then
      if (take_sign t).2.takeWhile isdigit = [] then (none, (take_sign t).2.dropWhile isdigit)
      else (some (m ++ e :: (take_sign t).1 ++ (take_sign t).2.takeWhile isdigit),
        (take_sign t).2.dropWhile isdigit)
    else (some m, e :: t)

/-- The text begins with a character that is not white space. -/
def solid (x : List Nat) : Prop := ∃ c r, x = c :: r ∧ isspace c = false

/-- A vector literal: three numbers between brackets, with the white space
around the numbers and the commas. -/
structure VecLit where
  w1 : List Nat
  x : NumLit
  w2 : List Nat
  w3 : List Nat
  y : NumLit
  w4 : List Nat
  w5 : List Nat
  z : NumLit
  w6 : List Nat
  deriving DecidableEq, Repr

/-- The characters of a vector literal. -/
def VecLit.text (v : VecLit) : List Nat :=
  91 :: (v.w1 ++ (v.x.text ++ (v.w2 ++ 44 :: (v.w3 ++ (v.y.text ++ (v.w4 ++ 44 ::
    (v.w5 ++ (v.z.text ++ (v.w6 ++ [93])))))))))

/-- The parts of a vector literal are white space and numbers. -/
def VecLit.wf (v : VecLit) : Bool :=
  is_ws v.w1 && v.x.wf && is_ws v.w2 && is_ws v.w3 && v.y.wf && is_ws v.w4 &&
  is_ws v.w5 && v.z.wf && is_ws v.w6

/-- The value of a property: a number or a vector. -/
inductive PropValue where
  | number (n : NumLit)
  | vector (v : VecLit)
  deriving DecidableEq, Repr

/-- The characters of a property value. -/
def PropValue.text : PropValue → List Nat
  | PropValue.number n => n.text
  | PropValue.vector v => v.text

/-- The keys whose value `read_scene` reads as a number. -/
def scalar_keys : List (List Nat) := [bytes "width", bytes "height", bytes "radius"]

/-- The keys whose value `read_scene` reads as a vector. -/
def vector_keys : List (List Nat) := [bytes "color", bytes "position", bytes "normal"]

/-- A property of an object together with the separator in front of it:
`ws ',' ws key ws ':' ws value`. -/
structure Property where
  w1 : List Nat
  w2 : List Nat
  key : List Nat
  w3 : List Nat
  w4 : List Nat
  value : PropValue
  deriving DecidableEq, Repr

/-- The characters of a property and of the separator in front of it. -/
def Property.text (p : Property) : List Nat :=
  p.w1 ++ 44 :: (p.w2 ++ (quoted p.key ++ (p.w3 ++ 58 :: (p.w4 ++ p.value.text))))

/-- A property of the grammar: one of the six keys, then a number or a vector. -/
def Property.grammatical (p : Property) : Bool :=
  is_ws p.w1 && is_ws p.w2 && is_ws p.w3 && is_ws p.w4 &&
  decide (p.key ∈ scalar_keys ++ vector_keys) &&
  match p.value with
  | PropValue.number n => n.wf
  | PropValue.vector v => v.wf

/-- A property whose value has the kind its key asks for: a number after
`width`, `height` and `radius`, a vector after `color`, `position` and `normal`. -/
def Property.wf (p : Property) : Bool :=
  is_ws p.w1 && is_ws p.w2 && is_ws p.w3 && is_ws p.w4 &&
  match p.value with
  | PropValue.number n => n.wf && decide (p.key ∈ scalar_keys)
  | PropValue.vector v => v.wf && decide (p.key ∈ vector_keys)

/-- The properties of an object and its closing brace: `(ws ',' ws property)* ws '}'`. -/
def fields_text : List Property → List Nat → List Nat
  | [], w => w ++ [125]
  | p :: ps, w => p.text ++ fields_text ps w

/-- The values of `type` that `read_scene` accepts. -/
def type_names : List (List Nat) := [bytes "camera", bytes "sphere", bytes "plane"]

/-- An object of the grammar:
`'{' ws "type" ws ':' ws type_value (ws ',' ws property)* ws '}'`. -/
structure Obj where
  w1 : List Nat
  w2 : List Nat
  w3 : List Nat
  type : List Nat
  props : List Property
  w4 : List Nat
  deriving DecidableEq, Repr

/-- The characters of an object. -/
def Obj.text (o : Obj) : List Nat :=
  123 :: (o.w1 ++ (quoted (bytes "type") ++ (o.w2 ++ 58 :: (o.w3 ++
    (quoted o.type ++ fields_text o.props o.w4)))))

/-- An object of the grammar as the claims read it: a known type, and
properties that are each one of the six keys with a number or a vector. -/
def Obj.grammatical (o : Obj) : Bool :=
  is_ws o.w1 && is_ws o.w2 && is_ws o.w3 && decide (o.type ∈ type_names) &&
  o.props.all Property.grammatical && is_ws o.w4

/-- An object whose properties each have a value of the kind the key asks for. -/
def Obj.wf (o : Obj) : Bool :=
  is_ws o.w1 && is_ws o.w2 && is_ws o.w3 && decide (o.type ∈ type_names) &&
  o.props.all Property.wf && is_ws o.w4

/-- An object that is not the last of the array, with its separator:
`object ws ',' ws`. -/
structure Item where
  obj : Obj
  w1 : List Nat
  w2 : List Nat
  deriving DecidableEq, Repr

/-- The characters of an object and of the separator after it. -/
def Item.text (it : Item) : List Nat := it.obj.text ++ (it.w1 ++ 44 :: it.w2)

/-- An object with well-formed properties, then white space around a comma. -/
def Item.wf (it : Item) : Bool := it.obj.wf && is_ws it.w1 && is_ws it.w2

/-- The characters of the objects that are not the last, separators included. -/
def items_text : List Item → List Nat
  | [] => []
  | it :: more => it.text ++ items_text more

/-- The part of `read_scene` after the properties of an object (lines 240-251). -/
def object_end (fuel : Nat) : M Unit := do
  skip_ws
  let c ← next_c
  if c = 44 then do
    skip_ws
    read_objects fuel
  else if c = 93 then pure ()
  else die Diag.ExpectedCommaOrBracket

/-- The part of `read_scene` after the check of the type of an object
(lines 206-251). -/
def object_fields (fuel : Nat) : M Unit := do
  skip_ws
  read_fields fuel
  object_end fuel

/-- Outcomes ordered by step budget: `unfinished` may become anything, any
other outcome stays. -/
def Res.le {α : Type} (r1 r2 : Res α) : Prop := r1 = Res.unfinished ∨ r1 = r2

/-- The beginning of a scene file: `ws '[' ws (object ws ',' ws)*`. -/
def scene_head (w0 w1 : List Nat) (init : List Item) : List Nat :=
  w0 ++ 91 :: (w1 ++ items_text init)

/-- A scene file with at least one object:
`ws '[' ws (object ws ',' ws)* object ws ']'`. -/
structure Doc where
  w0 : List Nat
  w1 : List Nat
  init : List Item
  last : Obj
  w2 : List Nat
  deriving DecidableEq, Repr

/-- The characters of a scene file. -/
def Doc.text (d : Doc) : List Nat :=
  scene_head d.w0 d.w1 d.init ++ (d.last.text ++ (d.w2 ++ [93]))

/-- The objects of a scene file, in file order. -/
def Doc.objects (d : Doc) : List Obj := d.init.map Item.obj ++ [d.last]

/-- A document of the grammar as the claims read it: every property is one
of the six keys followed by a number or a vector. -/
def Doc.grammatical (d : Doc) : Bool :=
  is_ws d.w0 && is_ws d.w1 &&
  d.init.all (fun it => it.obj.grammatical && is_ws it.w1 && is_ws it.w2) &&
  d.last.grammatical && is_ws d.w2

/-- A document of the grammar in which every property has a value of the
kind its key asks for. -/
def Doc.wf (d : Doc) : Bool :=
  is_ws d.w0 && is_ws d.w1 && d.init.all Item.wf && d.last.wf && is_ws d.w2

/-- The number of properties of a list of objects. -/
def props_total : List Item → Nat
  | [] => 0
  | it :: more => it.obj.props.length + props_total more

/-- A number of loop rounds that suffices to read a document. -/
def Doc.rounds (d : Doc) : Nat :=
  d.init.length + props_total d.init + d.last.props.length + 2

/-- A literal made of digits only. -/
def int_lit (digits : List Nat) : NumLit := ⟨[], digits, [], [], [], [], []⟩

/-- A vector literal without white space. -/
def vec_lit (x y z : NumLit) : VecLit := ⟨[], x, [], [], y, [], [], z, []⟩

/-- A property without white space. -/
def prop_lit (key : List Nat) (value : PropValue) : Property := ⟨[], [], key, [], [], value⟩

/-- An object without white space. -/
def obj_lit (type : List Nat) (props : List Property) : Obj := ⟨[], [], [], type, props, []⟩

/-- A document without white space. -/
def doc_lit (init : List Obj) (last : Obj) : Doc :=
  ⟨[], [], init.map (fun o => ⟨o, [], []⟩), last, []⟩

/-- The document `[{"type":"camera","width":[1,2,3]}]`. -/
def width_vector_doc : Doc :=
  doc_lit [] (obj_lit (bytes "camera")
    [prop_lit (bytes "width")
      (PropValue.vector (vec_lit (int_lit [49]) (int_lit [50]) (int_lit [51])))])

/-- The object `{"type":"plane","normal":[0,1,0]}`. -/
def plane_obj : Obj :=
  obj_lit (bytes "plane")
    [prop_lit (bytes "normal")
      (PropValue.vector (vec_lit (int_lit [48]) (int_lit [49]) (int_lit [48])))]

/-- The object `{"type":"camera","width":2,"height":2}`. -/
def camera_obj : Obj :=
  obj_lit (bytes "camera")
    [prop_lit (bytes "width") (PropValue.number (int_lit [50])),
     prop_lit (bytes "height") (PropValue.number (int_lit [50]))]

/-- The document `[{"type":t p}]` with one object of type `t` and the one
property `p` (separator included). -/
def one_property_doc (t : List Nat) (p : Property) : Doc :=
  ⟨[], [], [], ⟨[], [], [], t, [p], []⟩, []⟩

/-! ## The command line (lines 292-323) -/

/-- The messages of `main`, one constructor per `fprintf`/`perror` of lines 294-318. -/
inductive Usage where
  /-- `Error not correct amount of argc:` -/
  | ArgCount
  /-- `Error: please enter a number for the width.` -/
  | Width
  /-- `Error: please enter a number for the height.` -/
  | Height
  /-- `Error: input file is not a json file` -/
  | InputName
  /-- `Error: output file is not a json file` -/
  | OutputName
  deriving DecidableEq, Repr

/-- How the process ends: its exit code, the usage message of `main` if any,
and the messages of the parser; or not at all within the step budget. -/
inductive Exit where
  | code (n : Nat) (usage : List Usage) (stderr : List Diag)
  /-- A library function was called outside the arguments it is defined for. -/
  | undefined
  | unfinished
  deriving DecidableEq, Repr

/-- The digits read by the C library `atoi`, most significant first. -/
def atoi_digits : Int → List Nat → Int
  | acc, [] => acc
  | acc, c :: rest => if isdigit c then atoi_digits (acc * 10 + ((c : Int) - 48)) rest else acc

/-- The number the text of an argument of `atoi` stands for: white space, an
optional sign (45 is `-`, 43 is `+`), then digits up to the first other
character. -/
def atoi_value (t : List Nat) : Int :=
  match t.dropWhile isspace with
  | 45 :: rest => - atoi_digits 0 rest
  | 43 :: rest => atoi_digits 0 rest
  | rest => atoi_digits 0 rest

/-- The C library `atoi`, with `int` of 32 bits: the number the text stands
for when it fits an `int`; when it does not, the behaviour is undefined
(`none`). -/
def atoi (t : List Nat) : Option Int :=
  if -2147483648 ≤ atoi_value t ∧ atoi_value t ≤ 2147483647 then some (atoi_value t) else none

/-- The C library `isdigit` on an `int`: defined for the values of an
`unsigned char` (0 to 255) and for `EOF` (-1), where it holds for the codes
of `0` to `9` (48 to 57); undefined for any other argument (`none`). -/
def isdigit_int (v : Int) : Option Bool :=
  if -1 ≤ v ∧ v ≤ 255 then some (decide (48 ≤ v) && decide (v ≤ 57)) else none

/-- The tests of lines 297-299 and 304-305: `isdigit` applied to the value
`atoi` gives for an argument. -/
def digit_test (arg : List Nat) : Option Bool := (atoi arg).bind isdigit_int

/-- Whether `needle` stands at the front of `hay`. -/
def starts_with : List Nat → List Nat → Bool
  | _, [] => true
  | [], _ :: _ => false
  | h :: hay, n :: needle => h == n && starts_with hay needle

/-- The C library `strstr`, as the test `strstr(hay, needle) != 0`. -/
def strstr : List Nat → List Nat → Bool
  | [], needle => starts_with [] needle
  | h :: hay, needle => starts_with (h :: hay) needle || strstr hay needle

/-- What the process does with the outcome of `read_scene` (lines 321-322):
`exit(1)` inside the parser ends it with code 1 after the message, a return
is followed by `return 0`. -/
def exit_of : Res Unit → Exit
  | Res.ok _ s => Exit.code 0 [] s.stderr
  | Res.exit d s => Exit.code 1 [] (s.stderr ++ [d])
  | Res.unfinished => Exit.unfinished

/-- `main` (lines 292-323) on the argument vector `argv` (program name
first), with `open_file` giving the contents of the file of a given name, if
it can be opened. -/
def main (fuel : Nat) (open_file : List Nat → Option (List Nat)) (argv : List (List Nat)) :
    Exit :=
  if argv.length ≠ 5 then Exit.code 1 [Usage.ArgCount] []
  else
    match digit_test (argv.getD 1 []) with
    | none => Exit.undefined
    | some true => Exit.code 1 [Usage.Width] []
    | some false =>
      match digit_test (argv.getD 2 []) with
      | none => Exit.undefined
      | some true => Exit.code 1 [Usage.Height] []
      | some false =>
        if strstr (argv.getD 3 []) (bytes ".json") = false then
          Exit.code 1 [Usage.InputName] []
        else if strstr (argv.getD 4 []) (bytes ".json") = false then
          Exit.code 1 [Usage.OutputName] []
        else exit_of (read_scene fuel (open_file (argv.getD 3 [])))

/-- A file system with the one file `name`. -/
def one_file (name contents : List Nat) : List Nat → Option (List Nat) :=
  fun n => if n = name then some contents else none

/-- The characters of a list of properties, separators included. -/
def props_text : List Property → List Nat
  | [] => []
  | p :: ps => p.text ++ props_text ps

/-- The beginning of an object, up to and including the value of `type`. -/
def obj_head (a b c t : List Nat) : List Nat :=
  123 :: (a ++ (quoted (bytes "type") ++ (b ++ 58 :: (c ++ quoted t))))

/-- Whether the value of the last property is a number. -/
def ends_in_number : List Property → Bool
  | [] => false
  | [p] =>
    match p.value with
    | PropValue.number _ => true
    | PropValue.vector _ => false
  | _ :: q :: ps => ends_in_number (q :: ps)

/-- The text does not go on with a character that continues a number. -/
def ends_number (x : List Nat) : Bool :=
  match x with
  | [] => true
  | c :: _ => is_delim c

/-- The indices at which the loop of `next_string` writes into its 129
element `buffer`, in order: `buffer[i] = c` (line 110) for each character
kept, and `buffer[i] = 0` (line 114) at the closing quote. Same arguments and
same recursion as `next_string_loop`. -/
def next_string_loop_writes : Nat → Nat → List Nat → List Nat
  | c, i, [] =>
    if c = 34 then [i]
    else if i ≥ 128 then []
    else if c = 92 then []
    else if c < 32 ∨ c > 126 then []
    else [i]
  | c, i, c1 :: rest =>
    if c = 34 then [i]
    else if i ≥ 128 then []
    else if c = 92 then []
    else if c < 32 ∨ c > 126 then []
    else i :: next_string_loop_writes c1 (i + 1) rest

/-- The indices `next_string` writes at, on the unread input `json`: none
unless a quote and one more character can be read (lines 90-95). -/
def next_string_writes (json : List Nat) : List Nat :=
  match json with
  | [] => []
  | [_] => []
  | c :: c2 :: rest => if c = 34 then next_string_loop_writes c2 0 rest else []

/-- A computation whose returns do not look past the input they leave
unread: a return on the input `j` is the same return on `j ++ t`, with `t`
added to what is left. -/
def Lifts {α : Type} (x : M α) : Prop :=
  ∀ (j : List Nat) (l : Nat) (e : List Diag) (t : List Nat) (v : α) (r : List Nat) (l1 : Nat)
    (e1 : List Diag),
    x ⟨j, l, e⟩ = Res.ok v ⟨r, l1, e1⟩ → x ⟨j ++ t, l, e⟩ = Res.ok v ⟨r ++ t, l1, e1⟩

/-- The same for the returns that leave some of the input unread. -/
def LiftsSome {α : Type} (x : M α) : Prop :=
  ∀ (j : List Nat) (l : Nat) (e : List Diag) (t : List Nat) (v : α) (r : List Nat) (l1 : Nat)
    (e1 : List Diag),
    x ⟨j, l, e⟩ = Res.ok v ⟨r, l1, e1⟩ → r ≠ [] → x ⟨j ++ t, l, e⟩ = Res.ok v ⟨r ++ t, l1, e1⟩

/-- A computation that never returns at the end of the input. -/
def StopsAtEnd {α : Type} (x : M α) : Prop :=
  ∀ (l : Nat) (e : List Diag) (v : α) (s1 : State), x ⟨[], l, e⟩ ≠ Res.ok v s1

/-- A scanning step that gives what it read and what it left: at the end of
the input it leaves nothing, and when it leaves something it does the same
with more input behind. -/
def Stage {β : Type} (F : List Nat → β × List Nat) : Prop :=
  (F []).2 = [] ∧ ∀ j t, (F j).2 ≠ [] → F (j ++ t) = ((F j).1, (F j).2 ++ t)

/-! ## Basic facts about the scanner -/

theorem bind_apply {α β : Type} (x : M α) (f : α → M β) (s : State) :
    (x >>= f) s = match x s with
      | Res.ok v s1 => f v s1
      | Res.exit d s1 => Res.exit d s1
      | Res.unfinished => Res.unfinished := rfl

theorem bind_ok {α β : Type} {x : M α} {s s1 : State} {v : α} (f : α → M β)
    (h : x s = Res.ok v s1) : (x >>= f) s = f v s1 := by
  rw [bind_apply, h]

theorem bind_exit {α β : Type} {x : M α} {s s1 : State} {d : Diag} (f : α → M β)
    (h : x s = Res.exit d s1) : (x >>= f) s = Res.exit d s1 := by
  rw [bind_apply, h]

theorem pure_apply {α : Type} (v : α) (s : State) : (pure v : M α) s = Res.ok v s := rfl

theorem next_c_cons (c : Nat) (r : List Nat) (l : Nat) (e : List Diag) :
    next_c ⟨c :: r, l, e⟩ = Res.ok c ⟨r, l + (if c = 10 then 1 else 0), e⟩ := rfl

theorem expect_c_cons (d c : Nat) (r : List Nat) (l : Nat) (e : List Diag) :
    expect_c d ⟨c :: r, l, e⟩ =
      if c = d then Res.ok () ⟨r, l + (if c = 10 then 1 else 0), e⟩
      else Res.exit (Diag.SyntaxError d (l + (if c = 10 then 1 else 0)))
        ⟨r, l + (if c = 10 then 1 else 0), e⟩ := by
  unfold expect_c
  rw [bind_ok _ (next_c_cons c r l e)]
  split <;> rfl

theorem newlines_cons (c : Nat) (t : List Nat) :
    newlines (c :: t) = (if c = 10 then 1 else 0) + newlines t := by
  unfold newlines
  by_cases h : c = 10
  · subst h; simp; omega
  · have : (10 : Nat) ≠ c := fun h2 => h h2.symm
    simp [h, List.count_cons_of_ne this]

theorem newlines_append (a b : List Nat) : newlines (a ++ b) = newlines a + newlines b := by
  unfold newlines; exact List.count_append _ _ _

theorem isspace_ne_newline {c : Nat} (hc : isspace c = false) : c ≠ 10 := by
  rintro rfl; simp [isspace] at hc

theorem is_ws_cons {a : Nat} {w : List Nat} (hw : is_ws (a :: w) = true) :
    isspace a = true ∧ is_ws w = true := by
  simpa [is_ws] using hw

theorem skip_ws_loop_run (w : List Nat) (hw : is_ws w = true) (c0 c : Nat) (hc0 : isspace c0 = true)
    (hc : isspace c = false) (r : List Nat) (l : Nat) (e : List Diag) :
    skip_ws_loop c0 (w ++ c :: r) l e = Res.ok () ⟨c :: r, l + newlines w, e⟩ := by
  have hc10 := isspace_ne_newline hc
  induction w generalizing c0 l with
  | nil =>
    cases r with
    | nil => simp [skip_ws_loop, hc0, hc, hc10, newlines]
    | cons c1 r1 => simp [skip_ws_loop, hc0, hc, hc10, newlines]
  | cons a w ih =>
    obtain ⟨ha, hw2⟩ := is_ws_cons hw
    rw [List.cons_append, skip_ws_loop, if_pos hc0, ih hw2 a ha, newlines_cons]
    simp only [Res.ok.injEq, State.mk.injEq, true_and, and_true]
    omega

theorem skip_ws_run (w : List Nat) (hw : is_ws w = true) (c : Nat) (hc : isspace c = false)
    (r : List Nat) (l : Nat) (e : List Diag) :
    skip_ws ⟨w ++ c :: r, l, e⟩ = Res.ok () ⟨c :: r, l + newlines w, e⟩ := by
  have hc10 := isspace_ne_newline hc
  cases w with
  | nil =>
    cases r with
    | nil => simp [skip_ws, next_c, skip_ws_loop, hc, hc10, newlines]
    | cons c1 r1 => simp [skip_ws, next_c, skip_ws_loop, hc, hc10, newlines]
  | cons a w =>
    obtain ⟨ha, hw2⟩ := is_ws_cons hw
    rw [List.cons_append]
    simp only [skip_ws, next_c]
    rw [skip_ws_loop_run w hw2 a c ha hc, newlines_cons]
    simp only [Res.ok.injEq, State.mk.injEq, true_and, and_true]
    omega

/-! ## Strings -/

theorem next_string_loop_eq (c i : Nat) (buffer json : List Nat) (l : Nat) (e : List Diag) :
    next_string_loop c i buffer json l e =
      if c = 34 then Res.ok (strdup buffer) ⟨json, l, e⟩
      else if i ≥ 128 then Res.exit Diag.StringTooLong ⟨json, l, e⟩
      else if c = 92 then Res.exit Diag.UnsupportedEscape ⟨json, l, e⟩
      else if c < 32 ∨ c > 126 then Res.exit Diag.NonAsciiCharacter ⟨json, l, e⟩
      else string_rest (i + 1) (buffer ++ [c]) ⟨json, l, e⟩ := by
  cases json with
  | nil => rw [next_string_loop]; simp only [string_rest, next_c]
  | cons c1 r => rw [next_string_loop]; simp only [string_rest, next_c]

theorem skip_ws_loop_eq (c : Nat) (json : List Nat) (l : Nat) (e : List Diag) :
    skip_ws_loop c json l e =
      if isspace c then skip_ws ⟨json, l, e⟩ else ungetc c ⟨json, l, e⟩ := by
  cases json with
  | nil => rw [skip_ws_loop]; simp only [skip_ws, next_c, ungetc]
  | cons c1 r => rw [skip_ws_loop]; simp only [skip_ws, next_c, ungetc]

theorem next_string_eq (s : State) :
    next_string s = (do
      let c ← next_c
      if c ≠ 34 then die Diag.ExpectedString else string_rest 0 []) s := by
  rw [bind_apply]
  unfold next_string
  cases h : next_c s with
  | ok c s1 =>
    simp only
    by_cases hc : c = 34
    · simp only [hc, ne_eq, not_true_eq_false, if_false]; rfl
    · simp only [hc, ne_eq, not_false_eq_true, if_true]; rfl
  | exit d s1 => rfl
  | unfinished => rfl

theorem is_text_cons {a : Nat} {b : List Nat} (h : is_text (a :: b) = true) :
    (32 ≤ a ∧ a ≤ 126 ∧ a ≠ 92 ∧ a ≠ 34) ∧ is_text b = true := by
  simpa [is_text, and_assoc] using h

theorem strdup_text (b : List Nat) (h : is_text b = true) : strdup b = b := by
  unfold strdup
  rw [List.takeWhile_eq_self_iff]
  intro c hc
  have := (List.all_eq_true.mp h) c hc
  simp at this ⊢
  omega

theorem string_rest_run (b : List Nat) (hb : is_text b = true) (i : Nat) (buffer : List Nat)
    (hi : i + b.length ≤ 128) (rest : List Nat) (l : Nat) (e : List Diag) :
    string_rest i buffer ⟨b ++ 34 :: rest, l, e⟩ = Res.ok (strdup (buffer ++ b)) ⟨rest, l, e⟩ := by
  induction b generalizing i buffer with
  | nil =>
    simp only [string_rest, List.nil_append, next_c, List.append_nil]
    rw [next_string_loop_eq]; simp
  | cons a b ih =>
    obtain ⟨⟨h1, h2, h3, h4⟩, hb2⟩ := is_text_cons hb
    simp only [List.length_cons] at hi
    simp only [string_rest, List.cons_append, next_c]
    rw [next_string_loop_eq]
    have ha10 : a ≠ 10 := by omega
    have hi2 : ¬ i ≥ 128 := by omega
    have h5 : ¬ (a < 32 ∨ a > 126) := by omega
    simp only [h4, h3, hi2, h5, ha10, if_false, Nat.add_zero]
    rw [ih hb2 (i + 1) (buffer ++ [a]) (by omega)]
    simp

/-- Round trip: a well-formed string literal is read back as its body, and
the scanner is left right after the closing quote. -/
theorem next_string_run (b : List Nat) (hb : is_text b = true) (hlen : b.length ≤ 128)
    (rest : List Nat) (l : Nat) (e : List Diag) :
    next_string ⟨quoted b ++ rest, l, e⟩ = Res.ok b ⟨rest, l, e⟩ := by
  rw [next_string_eq]
  have h0 : (quoted b ++ rest) = 34 :: (b ++ 34 :: rest) := by simp [quoted]
  rw [h0, bind_ok _ (next_c_cons 34 _ l e)]
  simp only [ne_eq, not_true_eq_false, if_false]
  have := string_rest_run b hb 0 [] (by omega) rest l e
  simp only [List.nil_append] at this
  rw [strdup_text b hb] at this
  simpa using this

theorem string_rest_reject (b : List Nat) (hq : 34 ∉ b) (i : Nat) (buffer : List Nat)
    (hi : i ≤ 128)
    (h : 128 < i + b.length ∨ 92 ∈ b ∨ ∃ c ∈ b, c < 32 ∨ 126 < c)
    (rest : List Nat) (l : Nat) (e : List Diag) :
    ∃ d s1, string_rest i buffer ⟨b ++ 34 :: rest, l, e⟩ = Res.exit d s1 ∧
      ((d = Diag.StringTooLong ∧ 128 < i + b.length) ∨
       (d = Diag.UnsupportedEscape ∧ 92 ∈ b) ∨
       (d = Diag.NonAsciiCharacter ∧ ∃ c ∈ b, c < 32 ∨ 126 < c)) := by
  induction b generalizing i buffer l with
  | nil =>
    simp only [List.length_nil, List.not_mem_nil, false_and, exists_false, or_false] at h
    omega
  | cons a b ih =>
    have ha : a ≠ 34 := fun h0 => hq (by simp [h0])
    have hq2 : 34 ∉ b := fun h0 => hq (List.mem_cons_of_mem _ h0)
    simp only [string_rest, List.cons_append, next_c]
    rw [next_string_loop_eq]
    simp only [ha, if_false]
    by_cases h1 : i ≥ 128
    · refine ⟨_, _, by rw [if_pos h1], Or.inl ⟨rfl, ?_⟩⟩
      simp only [List.length_cons]; omega
    rw [if_neg h1]
    by_cases h2 : a = 92
    · exact ⟨_, _, by rw [if_pos h2], Or.inr (Or.inl ⟨rfl, by simp [h2]⟩)⟩
    rw [if_neg h2]
    by_cases h3 : a < 32 ∨ a > 126
    · exact ⟨_, _, by rw [if_pos h3], Or.inr (Or.inr ⟨rfl, a, by simp, h3⟩)⟩
    rw [if_neg h3]
    have h' : 128 < i + 1 + b.length ∨ 92 ∈ b ∨ ∃ c ∈ b, c < 32 ∨ 126 < c := by
      rcases h with h | h | ⟨c, hc, hbad⟩
      · left; simp only [List.length_cons] at h; omega
      · right; left
        rcases List.mem_cons.mp h with h | h
        · exact absurd h.symm h2
        · exact h
      · right; right
        rcases List.mem_cons.mp hc with h | h
        · subst h; exact absurd hbad h3
        · exact ⟨c, h, hbad⟩
    obtain ⟨d, s1, hrun, hd⟩ := ih hq2 (i + 1) (buffer ++ [a]) (by omega) h' (l + if a = 10 then 1 else 0)
    refine ⟨d, s1, hrun, ?_⟩
    rcases hd with ⟨h, h0⟩ | ⟨h, h0⟩ | ⟨h, c, hc, h0⟩
    · left; exact ⟨h, by simp only [List.length_cons]; omega⟩
    · right; left; exact ⟨h, List.mem_cons_of_mem _ h0⟩
    · right; right; exact ⟨h, c, List.mem_cons_of_mem _ hc, h0⟩

/-- Claim C4, as amended: for every string `s` of at most 128 printable
characters (codes 32 to 126) that holds neither a backslash nor a double
quote, `next_string` on `"s"` followed by `rest` returns exactly `s` and
leaves the scanner at `rest`, the line counter unchanged. -/
theorem next_string_round_trip (s rest : List Nat) (l : Nat) (e : List Diag)
    (hlen : s.length ≤ 128) (hprint : ∀ c ∈ s, 32 ≤ c ∧ c ≤ 126)
    (hbackslash : 92 ∉ s) (hquote : 34 ∉ s) :
    next_string ⟨34 :: (s ++ 34 :: rest), l, e⟩ = Res.ok s ⟨rest, l, e⟩ := by
  have hs : is_text s = true := by
    simp only [is_text, List.all_eq_true, Bool.and_eq_true, decide_eq_true_eq, bne_iff_ne, ne_eq]
    intro c hc
    exact ⟨⟨hprint c hc, fun h => hbackslash (h ▸ hc)⟩, fun h => hquote (h ▸ hc)⟩
  have := next_string_run s hs hlen rest l e
  simpa [quoted] using this

theorem next_string_round_trip_witness :
    next_string ⟨34 :: (bytes "type" ++ 34 :: bytes ": 1"), 1, []⟩
      = Res.ok (bytes "type") ⟨bytes ": 1", 1, []⟩ :=
  next_string_round_trip (bytes "type") (bytes ": 1") 1 [] (by decide) (by decide)
    (by decide) (by decide)

/-- Claim C4 fails as stated: the three characters `a"b` are printable and
hold no backslash, yet `next_string` on `"a"b"` followed by `rest` returns
`a` and leaves the scanner before `b"rest`. -/
theorem next_string_quote_counterexample :
    (bytes "a\"b").length ≤ 128 ∧ (∀ c ∈ bytes "a\"b", 32 ≤ c ∧ c ≤ 126) ∧
    92 ∉ bytes "a\"b" ∧
    next_string ⟨34 :: (bytes "a\"b" ++ 34 :: bytes "rest"), 1, []⟩
      = Res.ok (bytes "a") ⟨bytes "b\"rest", 1, []⟩ ∧
    next_string ⟨34 :: (bytes "a\"b" ++ 34 :: bytes "rest"), 1, []⟩
      ≠ Res.ok (bytes "a\"b") ⟨bytes "rest", 1, []⟩ := by
  decide

/-- Claim C5: when the body of a string literal (the characters between the
opening quote and the closing quote) is longer than 128 characters, holds a
backslash, or holds a character outside 32..126, `next_string` ends the
process with `StringTooLong`, `UnsupportedEscape` or `NonAsciiCharacter`, and
the kind it reports is one whose condition the body meets. -/
theorem next_string_rejects (b rest : List Nat) (l : Nat) (e : List Diag)
    (hquote : 34 ∉ b)
    (h : 128 < b.length ∨ 92 ∈ b ∨ ∃ c ∈ b, c < 32 ∨ 126 < c) :
    ∃ d s1, next_string ⟨34 :: (b ++ 34 :: rest), l, e⟩ = Res.exit d s1 ∧
      ((d = Diag.StringTooLong ∧ 128 < b.length) ∨
       (d = Diag.UnsupportedEscape ∧ 92 ∈ b) ∨
       (d = Diag.NonAsciiCharacter ∧ ∃ c ∈ b, c < 32 ∨ 126 < c)) := by
  rw [next_string_eq, bind_ok _ (next_c_cons 34 _ l e)]
  simp only [ne_eq, not_true_eq_false, if_false]
  have := string_rest_reject b hquote 0 [] (by omega) (by simpa using h) rest
    (l + if (34 : Nat) = 10 then 1 else 0) e
  simpa using this

theorem next_string_rejects_witness :
    ∃ d s1, next_string ⟨34 :: (bytes "a\\n" ++ 34 :: bytes "\x7d"), 1, []⟩ = Res.exit d s1 ∧
      ((d = Diag.StringTooLong ∧ 128 < (bytes "a\\n").length) ∨
       (d = Diag.UnsupportedEscape ∧ 92 ∈ bytes "a\\n") ∨
       (d = Diag.NonAsciiCharacter ∧ ∃ c ∈ bytes "a\\n", c < 32 ∨ 126 < c)) :=
  next_string_rejects (bytes "a\\n") (bytes "\x7d") 1 [] (by decide) (Or.inr (Or.inl (by decide)))

/-! ## Numbers and vectors -/

theorem takeWhile_digits (ds x : List Nat) (hds : ds.all isdigit = true)
    (hx : ∀ c ∈ x.head?, isdigit c = false) :
    (ds ++ x).takeWhile isdigit = ds ∧ (ds ++ x).dropWhile isdigit = x := by
  have h1 : ∀ a ∈ ds, isdigit a = true := by simpa using hds
  rw [List.takeWhile_append_of_pos h1, List.dropWhile_append_of_pos h1]
  cases x with
  | nil => simp
  | cons c x =>
    have : isdigit c = false := hx c (by simp)
    simp [this]

theorem take_sign_run (sg x : List Nat) (hsg : is_sign sg = true)
    (hx : sg = [] → ∀ c ∈ x.head?, c ≠ 43 ∧ c ≠ 45) : take_sign (sg ++ x) = (sg, x) := by
  simp only [is_sign, Bool.or_eq_true, beq_iff_eq] at hsg
  rcases hsg with (rfl | rfl) | rfl
  · cases x with
    | nil => rfl
    | cons c x =>
      have := hx rfl c (by simp)
      simp [take_sign, this.1, this.2]
  · simp [take_sign]
  · simp [take_sign]

theorem take_point_run (pt x : List Nat) (hpt : pt = [] ∨ pt = [46])
    (hx : pt = [] → ∀ c ∈ x.head?, c ≠ 46) : take_point (pt ++ x) = (pt, x) := by
  rcases hpt with rfl | rfl
  · cases x with
    | nil => rfl
    | cons c x =>
      have := hx rfl c (by simp)
      simp [take_point, this]
  · simp [take_point]

theorem dropWhile_isspace_id (x : List Nat) (hx : ∀ c ∈ x.head?, isspace c = false) :
    x.dropWhile isspace = x := by
  cases x with
  | nil => rfl
  | cons c x => simp [hx c (by simp)]

theorem head_append_cases {α : Type} (a b : List α) (P : α → Prop)
    (ha : ∀ c ∈ a.head?, P c) (hb : a = [] → ∀ c ∈ b.head?, P c) :
    ∀ c ∈ (a ++ b).head?, P c := by
  cases a with
  | nil => simpa using hb rfl
  | cons x a => simpa using ha

theorem digits_head (ds : List Nat) (hds : ds.all isdigit = true) :
    ∀ c ∈ ds.head?, isdigit c = true := by
  cases ds with
  | nil => simp
  | cons a ds => simp at hds ⊢; exact hds.1

theorem scan_float_mantissa (sg ip pt fp x : List Nat) (hsg : is_sign sg = true)
    (hip : ip.all isdigit = true) (hpt : pt = [] ∨ pt = [46]) (hfp : fp.all isdigit = true)
    (hpf : pt ≠ [] ∨ fp = []) (hne : ip ≠ [] ∨ fp ≠ [])
    (hx : ∀ c ∈ x.head?, isdigit c = false ∧ c ≠ 46) :
    scan_float (sg ++ (ip ++ (pt ++ (fp ++ x)))) = scan_exponent (sg ++ ip ++ pt ++ fp) x := by
  have hpt46 : ∀ c ∈ pt.head?, c = 46 := by
    rcases hpt with rfl | rfl <;> simp
  have hsgc : ∀ c ∈ sg.head?, c = 43 ∨ c = 45 := by
    simp only [is_sign, Bool.or_eq_true, beq_iff_eq] at hsg
    rcases hsg with (rfl | rfl) | rfl <;> simp
  -- heads of the successive remainders
  have hX3 : ∀ c ∈ (fp ++ x).head?, (isdigit c = true ∧ pt ≠ []) ∨ (isdigit c = false ∧ c ≠ 46) := by
    apply head_append_cases
    · intro c hc
      left
      refine ⟨digits_head fp hfp c hc, ?_⟩
      rcases hpf with h | h
      · exact h
      · subst h; simp at hc
    · intro _ c hc; exact Or.inr (hx c hc)
  have hX2 : ∀ c ∈ (pt ++ (fp ++ x)).head?, isdigit c = false ∧ (c = 46 ∨ ip ≠ []) := by
    apply head_append_cases
    · intro c hc
      have := hpt46 c hc
      subst this
      exact ⟨by decide, Or.inl rfl⟩
    · intro hp c hc
      rcases hX3 c hc with ⟨_, h⟩ | ⟨h1, _⟩
      · exact absurd hp h
      · refine ⟨h1, Or.inr ?_⟩
        rcases hne with h | h
        · exact h
        · rcases hpf with h2 | h2
          · exact absurd hp h2
          · exact absurd h2 h
  have hX1 : ∀ c ∈ (ip ++ (pt ++ (fp ++ x))).head?, isdigit c = true ∨ c = 46 := by
    apply head_append_cases
    · intro c hc; exact Or.inl (digits_head ip hip c hc)
    · intro hi c hc
      rcases (hX2 c hc).2 with h | h
      · exact Or.inr h
      · exact absurd hi h
  have hX0 : ∀ c ∈ (sg ++ (ip ++ (pt ++ (fp ++ x)))).head?, isspace c = false := by
    apply head_append_cases
    · intro c hc
      rcases hsgc c hc with rfl | rfl <;> decide
    · intro _ c hc
      rcases hX1 c hc with h | rfl
      · simp only [isdigit, Bool.and_eq_true, decide_eq_true_eq] at h
        simp only [isspace, Bool.or_eq_false_iff, beq_eq_false_iff_ne, ne_eq,
          Bool.and_eq_false_iff, decide_eq_false_iff_not]
        omega
      · decide
  have h0 := dropWhile_isspace_id _ hX0
  have h1 := take_sign_run sg (ip ++ (pt ++ (fp ++ x))) hsg (by
    intro _ c hc
    rcases hX1 c hc with h | rfl
    · simp only [isdigit, Bool.and_eq_true, decide_eq_true_eq] at h
      omega
    · decide)
  have h2 := takeWhile_digits ip (pt ++ (fp ++ x)) hip (fun c hc => (hX2 c hc).1)
  have h3 := take_point_run pt (fp ++ x) hpt (by
    intro hp c hc
    rcases hX3 c hc with ⟨_, h⟩ | ⟨_, h⟩
    · exact absurd hp h
    · exact h)
  have h4 := takeWhile_digits fp x hfp (fun c hc => (hx c hc).1)
  unfold scan_float
  simp only [h0, h1, h2.1, h2.2, h3]
  rcases hpt with rfl | rfl
  · have hfp0 : fp = [] := by
      rcases hpf with h | h
      · exact absurd rfl h
      · exact h
    subst hfp0
    have hip0 : ip ≠ [] := by
      rcases hne with h | h
      · exact h
      · exact absurd rfl h
    simp only [if_true, List.nil_append, and_true, hip0, if_false, List.append_nil]
    cases x <;> rfl
  · have hne2 : ¬ (ip = [] ∧ fp = []) := by
      rintro ⟨a, b⟩
      rcases hne with h | h
      · exact h a
      · exact h b
    simp only [List.cons_ne_nil, if_false, h4.1, h4.2, hne2]
    cases x <;> rfl

theorem scan_float_lit (n : NumLit) (hn : n.wf = true) (d : Nat) (hd : is_delim d = true)
    (rest : List Nat) :
    scan_float (n.text ++ d :: rest) = (some n.text, d :: rest) := by
  obtain ⟨sg, ip, pt, fp, mk, es, ed⟩ := n
  simp only [NumLit.wf, Bool.and_eq_true, Bool.or_eq_true, beq_iff_eq, bne_iff_ne, ne_eq] at hn
  obtain ⟨⟨⟨⟨⟨⟨hsg, hip⟩, hpt⟩, hfp⟩, hpf⟩, hne⟩, hex⟩ := hn
  simp only [is_delim, Bool.and_eq_true, Bool.not_eq_true', bne_iff_ne, ne_eq] at hd
  obtain ⟨⟨⟨hd1, hd2⟩, hd3⟩, hd4⟩ := hd
  have hpf2 : pt ≠ [] ∨ fp = [] := hpf
  rcases hex with ⟨⟨rfl, rfl⟩, rfl⟩ | ⟨⟨⟨hmk, hes⟩, hed⟩, hed0⟩
  · have := scan_float_mantissa sg ip pt fp (d :: rest) hsg hip hpt hfp hpf2 hne
      (by intro c hc; simp at hc; subst hc; exact ⟨hd1, hd2⟩)
    simp only [NumLit.text, List.append_nil, List.nil_append, List.append_assoc] at this ⊢
    rw [this]
    simp [scan_exponent, hd3, hd4]
  · have hmk2 : ∃ m, mk = [m] ∧ (m = 101 ∨ m = 69) := by
      rcases hmk with h | h
      · exact ⟨101, h, Or.inl rfl⟩
      · exact ⟨69, h, Or.inr rfl⟩
    obtain ⟨m, rfl, hm⟩ := hmk2
    have hm1 : isdigit m = false ∧ m ≠ 46 := by
      rcases hm with rfl | rfl <;> exact ⟨by decide, by decide⟩
    have := scan_float_mantissa sg ip pt fp (m :: (es ++ (ed ++ d :: rest))) hsg hip hpt hfp
      hpf2 hne (by intro c hc; simp at hc; subst hc; exact hm1)
    simp only [NumLit.text, List.append_nil, List.nil_append, List.append_assoc,
      List.cons_append, List.singleton_append] at this ⊢
    rw [this]
    have h5 := take_sign_run es (ed ++ d :: rest) hes (by
      intro _ c hc
      have hc2 : c ∈ ed.head? := by
        cases ed with
        | nil => exact absurd rfl hed0
        | cons a ed => simpa using hc
      have := digits_head ed hed c hc2
      simp only [isdigit, Bool.and_eq_true, decide_eq_true_eq] at this
      omega)
    have h6 := takeWhile_digits ed (d :: rest) hed (by intro c hc; simp at hc; subst hc; exact hd1)
    simp only [scan_exponent, hm, if_true, h5, h6.1, h6.2, hed0, if_false, List.append_assoc,
      List.cons_append, List.singleton_append]

theorem next_number_lit (n : NumLit) (hn : n.wf = true) (d : Nat) (hd : is_delim d = true)
    (rest : List Nat) (l : Nat) (e : List Diag) :
    next_number ⟨n.text ++ d :: rest, l, e⟩ = Res.ok (Value.float_stored n.text) ⟨d :: rest, l, e⟩ := by
  simp only [next_number, scan_float_lit n hn d hd rest]

theorem solid_cons {c : Nat} (r : List Nat) (hc : isspace c = false) : solid (c :: r) :=
  ⟨c, r, rfl, hc⟩

theorem skip_ws_solid (w : List Nat) (hw : is_ws w = true) (x : List Nat) (hx : solid x)
    (l : Nat) (e : List Diag) :
    skip_ws ⟨w ++ x, l, e⟩ = Res.ok () ⟨x, l + newlines w, e⟩ := by
  obtain ⟨c, r, rfl, hc⟩ := hx
  exact skip_ws_run w hw c hc r l e

theorem expect_c_ok (d : Nat) (hd : d ≠ 10) (r : List Nat) (l : Nat) (e : List Diag) :
    expect_c d ⟨d :: r, l, e⟩ = Res.ok () ⟨r, l, e⟩ := by
  rw [expect_c_cons]; simp [hd]

theorem NumLit.no_newline (n : NumLit) (hn : n.wf = true) : newlines n.text = 0 := by
  obtain ⟨sg, ip, pt, fp, mk, es, ed⟩ := n
  simp only [NumLit.wf, Bool.and_eq_true, Bool.or_eq_true, beq_iff_eq, bne_iff_ne, ne_eq,
    is_sign] at hn
  obtain ⟨⟨⟨⟨⟨⟨hsg, hip⟩, hpt⟩, hfp⟩, _⟩, _⟩, hex⟩ := hn
  have hdig : ∀ ds : List Nat, ds.all isdigit = true → newlines ds = 0 := by
    intro ds hds
    unfold newlines
    rw [List.count_eq_zero]
    intro h
    have := (List.all_eq_true.mp hds) 10 h
    simp [isdigit] at this
  simp only [NumLit.text, newlines_append, hdig ip hip, hdig fp hfp]
  have h1 : newlines sg = 0 := by rcases hsg with (rfl | rfl) | rfl <;> rfl
  have h2 : newlines pt = 0 := by rcases hpt with rfl | rfl <;> rfl
  have h3 : newlines mk + (newlines es + newlines ed) = 0 := by
    rcases hex with ⟨⟨rfl, rfl⟩, rfl⟩ | ⟨⟨⟨hmk, hes⟩, hed⟩, _⟩
    · rfl
    · have h4 : newlines mk = 0 := by rcases hmk with rfl | rfl <;> rfl
      have h5 : newlines es = 0 := by rcases hes with (rfl | rfl) | rfl <;> rfl
      rw [h4, h5, hdig ed hed]
  omega

theorem NumLit.solid_text (n : NumLit) (hn : n.wf = true) (x : List Nat) :
    solid (n.text ++ x) := by
  obtain ⟨sg, ip, pt, fp, mk, es, ed⟩ := n
  simp only [NumLit.wf, Bool.and_eq_true, Bool.or_eq_true, beq_iff_eq, bne_iff_ne, ne_eq,
    is_sign] at hn
  obtain ⟨⟨⟨⟨⟨⟨hsg, hip⟩, hpt⟩, hfp⟩, hpf⟩, hne⟩, _⟩ := hn
  simp only [NumLit.text]
  rcases hsg with (rfl | rfl) | rfl
  · cases ip with
    | cons a ip =>
      have ha : isdigit a = true := by simp at hip; exact hip.1
      refine ⟨a, _, rfl, ?_⟩
      simp only [isdigit, Bool.and_eq_true, decide_eq_true_eq] at ha
      simp only [isspace, Bool.or_eq_false_iff, beq_eq_false_iff_ne, ne_eq,
        Bool.and_eq_false_iff, decide_eq_false_iff_not]
      omega
    | nil =>
      rcases hpt with rfl | rfl
      · exfalso
        rcases hpf with h | h
        · exact h rfl
        · rcases hne with h2 | h2
          · exact h2 rfl
          · exact h2 h
      · exact ⟨46, _, rfl, by decide⟩
  · exact ⟨43, _, rfl, by decide⟩
  · exact ⟨45, _, rfl, by decide⟩

theorem is_ws_delim {w : List Nat} (hw : is_ws w = true) :
    ∀ c ∈ w, is_delim c = true := by
  intro c hc
  have := (List.all_eq_true.mp hw) c hc
  simp only [isspace, Bool.or_eq_true, beq_iff_eq, Bool.and_eq_true, decide_eq_true_eq] at this
  simp only [is_delim, isdigit, Bool.and_eq_true, Bool.not_eq_true', bne_iff_ne, ne_eq,
    Bool.and_eq_false_iff, decide_eq_false_iff_not]
  omega

/-- A number followed by white space and then a delimiter is read whole. -/
theorem next_number_ws (n : NumLit) (hn : n.wf = true) (w : List Nat) (hw : is_ws w = true)
    (d : Nat) (hd : is_delim d = true) (rest : List Nat) (l : Nat) (e : List Diag) :
    next_number ⟨n.text ++ (w ++ d :: rest), l, e⟩
      = Res.ok (Value.float_stored n.text) ⟨w ++ d :: rest, l, e⟩ := by
  cases w with
  | nil => exact next_number_lit n hn d hd rest l e
  | cons a w =>
    exact next_number_lit n hn a (is_ws_delim hw a (by simp)) (w ++ d :: rest) l e

theorem next_vector_lit (v : VecLit) (hv : v.wf = true) (rest : List Nat) (l : Nat)
    (e : List Diag) :
    next_vector ⟨v.text ++ rest, l, e⟩
      = Res.ok (Value.float_stored v.x.text, Value.float_stored v.y.text, Value.float_stored v.z.text)
          ⟨rest, l + newlines v.text, e⟩ := by
  obtain ⟨w1, x, w2, w3, y, w4, w5, z, w6⟩ := v
  simp only [VecLit.wf, Bool.and_eq_true] at hv
  obtain ⟨⟨⟨⟨⟨⟨⟨⟨h1, hx⟩, h2⟩, h3⟩, hy⟩, h4⟩, h5⟩, hz⟩, h6⟩ := hv
  simp only [VecLit.text, List.append_assoc, List.cons_append, List.nil_append]
  unfold next_vector
  rw [bind_ok _ (expect_c_ok 91 (by decide) _ l e)]
  rw [bind_ok _ (skip_ws_solid w1 h1 _ (NumLit.solid_text x hx _) _ e)]
  rw [bind_ok _ (next_number_ws x hx w2 h2 44 (by decide) _ _ e)]
  rw [bind_ok _ (skip_ws_solid w2 h2 _ (solid_cons _ (by decide)) _ e)]
  rw [bind_ok _ (expect_c_ok 44 (by decide) _ _ e)]
  rw [bind_ok _ (skip_ws_solid w3 h3 _ (NumLit.solid_text y hy _) _ e)]
  rw [bind_ok _ (next_number_ws y hy w4 h4 44 (by decide) _ _ e)]
  rw [bind_ok _ (skip_ws_solid w4 h4 _ (solid_cons _ (by decide)) _ e)]
  rw [bind_ok _ (expect_c_ok 44 (by decide) _ _ e)]
  rw [bind_ok _ (skip_ws_solid w5 h5 _ (NumLit.solid_text z hz _) _ e)]
  rw [bind_ok _ (next_number_ws z hz w6 h6 93 (by decide) _ _ e)]
  rw [bind_ok _ (skip_ws_solid w6 h6 _ (solid_cons _ (by decide)) _ e)]
  rw [bind_ok _ (expect_c_ok 93 (by decide) _ _ e)]
  rw [pure_apply]
  simp only [newlines_cons, newlines_append, NumLit.no_newline _ hx, NumLit.no_newline _ hy,
    NumLit.no_newline _ hz, Res.ok.injEq, State.mk.injEq, true_and, and_true]
  simp [newlines]
  omega

/-! ## Properties of an object -/

theorem newlines_quoted (b : List Nat) (hb : is_text b = true) : newlines (quoted b) = 0 := by
  unfold newlines quoted
  rw [List.count_eq_zero]
  intro h
  have h10 : (10 : Nat) ∈ b := by simpa using h
  have := (List.all_eq_true.mp hb) 10 h10
  simp at this

theorem solid_quoted (b x : List Nat) : solid (quoted b ++ x) :=
  ⟨34, _, rfl, by decide⟩

theorem next_string_quoted (b : List Nat) (hb : is_text b = true) (hlen : b.length ≤ 128)
    (rest : List Nat) (l : Nat) (e : List Diag) :
    next_string ⟨quoted b ++ rest, l, e⟩ = Res.ok b ⟨rest, l + newlines (quoted b), e⟩ := by
  rw [next_string_run b hb hlen, newlines_quoted b hb]; rfl

theorem fields_text_shape (ps : List Property) (w : List Nat) (hps : ∀ p ∈ ps, is_ws p.w1 = true)
    (hw : is_ws w = true) (rest : List Nat) :
    ∃ w0 d r, is_ws w0 = true ∧ (d = 44 ∨ d = 125) ∧ fields_text ps w ++ rest = w0 ++ d :: r := by
  cases ps with
  | nil => exact ⟨w, 125, rest, hw, Or.inr rfl, by simp [fields_text]⟩
  | cons p ps =>
    exact ⟨p.w1, 44,
      (p.w2 ++ (quoted p.key ++ (p.w3 ++ 58 :: (p.w4 ++ p.value.text)))) ++ (fields_text ps w ++ rest),
      hps p (by simp), Or.inl rfl, by simp [fields_text, Property.text]⟩

theorem read_value_scalar (key : List Nat) (hk : key ∈ scalar_keys) (s : State) :
    read_value key s = (next_number >>= fun _ => pure ()) s := by
  have : key = bytes "width" ∨ key = bytes "height" ∨ key = bytes "radius" := by
    simpa [scalar_keys] using hk
  unfold read_value
  rw [if_pos this]

theorem read_value_vector (key : List Nat) (hk : key ∈ vector_keys) (s : State) :
    read_value key s = (next_vector >>= fun _ => pure ()) s := by
  have h2 : key = bytes "color" ∨ key = bytes "position" ∨ key = bytes "normal" := by
    simpa [vector_keys] using hk
  have h1 : ¬ (key = bytes "width" ∨ key = bytes "height" ∨ key = bytes "radius") := by
    rcases h2 with rfl | rfl | rfl <;> decide
  unfold read_value
  rw [if_neg h1, if_pos h2]

theorem property_wf_parts {p : Property} (hp : p.wf = true) :
    is_ws p.w1 = true ∧ is_ws p.w2 = true ∧ is_ws p.w3 = true ∧ is_ws p.w4 = true := by
  simp only [Property.wf, Bool.and_eq_true] at hp
  exact ⟨hp.1.1.1.1, hp.1.1.1.2, hp.1.1.2, hp.1.2⟩

theorem scalar_key_text {k : List Nat} (hk : k ∈ scalar_keys) :
    is_text k = true ∧ k.length ≤ 128 := by
  simp only [scalar_keys, List.mem_cons, List.mem_singleton, List.not_mem_nil, or_false] at hk
  rcases hk with rfl | rfl | rfl <;> decide

theorem vector_key_text {k : List Nat} (hk : k ∈ vector_keys) :
    is_text k = true ∧ k.length ≤ 128 := by
  simp only [vector_keys, List.mem_cons, List.mem_singleton, List.not_mem_nil, or_false] at hk
  rcases hk with rfl | rfl | rfl <;> decide

/-- Reading one well-formed value, whatever follows among the properties. -/
theorem read_value_run (p : Property) (hp : p.wf = true) (ps : List Property) (w : List Nat)
    (hps : ∀ q ∈ ps, q.wf = true) (hw : is_ws w = true) (rest : List Nat) (l : Nat)
    (e : List Diag) :
    read_value p.key ⟨p.value.text ++ (fields_text ps w ++ rest), l, e⟩
      = Res.ok () ⟨fields_text ps w ++ rest, l + newlines p.value.text, e⟩ := by
  obtain ⟨w0, d, r, hw0, hd, hshape⟩ := fields_text_shape ps w
    (fun q hq => (property_wf_parts (hps q hq)).1) hw rest
  have hdel : is_delim d = true := by rcases hd with rfl | rfl <;> decide
  obtain ⟨w1, w2, key, w3, w4, value⟩ := p
  simp only [Property.wf, Bool.and_eq_true] at hp
  cases value with
  | number n =>
    simp only [Bool.and_eq_true, decide_eq_true_eq] at hp
    simp only [PropValue.text]
    rw [read_value_scalar key hp.2.2, hshape,
      bind_ok _ (next_number_ws n hp.2.1 w0 hw0 d hdel r l e), pure_apply,
      NumLit.no_newline n hp.2.1]
    rfl
  | vector v =>
    simp only [Bool.and_eq_true, decide_eq_true_eq] at hp
    simp only [PropValue.text]
    rw [read_value_vector key hp.2.2, bind_ok _ (next_vector_lit v hp.2.1 _ l e), pure_apply]

theorem solid_value (p : Property) (hp : p.wf = true) (x : List Nat) :
    solid (p.value.text ++ x) := by
  obtain ⟨w1, w2, key, w3, w4, value⟩ := p
  simp only [Property.wf, Bool.and_eq_true] at hp
  cases value with
  | number n =>
    simp only [Bool.and_eq_true, decide_eq_true_eq] at hp
    exact NumLit.solid_text n hp.2.1 x
  | vector v => exact ⟨91, _, rfl, by decide⟩

theorem Property.key_text {p : Property} (hp : p.wf = true) :
    is_text p.key = true ∧ p.key.length ≤ 128 := by
  obtain ⟨w1, w2, key, w3, w4, value⟩ := p
  simp only [Property.wf, Bool.and_eq_true] at hp
  cases value with
  | number n =>
    simp only [Bool.and_eq_true, decide_eq_true_eq] at hp
    exact scalar_key_text hp.2.2
  | vector v =>
    simp only [Bool.and_eq_true, decide_eq_true_eq] at hp
    exact vector_key_text hp.2.2

/-- The property loop on well-formed properties: everything up to and
including the closing brace is read, and nothing is printed. -/
theorem read_fields_run (ps : List Property) (w : List Nat) (hps : ∀ p ∈ ps, p.wf = true)
    (hw : is_ws w = true) (fuel : Nat) (hf : ps.length < fuel) (rest : List Nat) (l : Nat)
    (e : List Diag) :
    (skip_ws >>= fun _ => read_fields fuel) ⟨fields_text ps w ++ rest, l, e⟩
      = Res.ok () ⟨rest, l + newlines (fields_text ps w), e⟩ := by
  induction ps generalizing fuel l with
  | nil =>
    obtain ⟨f, rfl⟩ : ∃ f, fuel = f + 1 := ⟨fuel - 1, by omega⟩
    simp only [fields_text, List.append_assoc, List.cons_append, List.nil_append]
    rw [bind_ok _ (skip_ws_solid w hw _ (solid_cons _ (by decide)) l e), read_fields,
      bind_ok _ (next_c_cons 125 rest _ e)]
    simp only [if_true, pure_apply, newlines_append, newlines_cons]
    simp [newlines]
  | cons p ps ih =>
    obtain ⟨f, rfl⟩ : ∃ f, fuel = f + 1 := ⟨fuel - 1, by omega⟩
    have hp := hps p (by simp)
    have hps2 : ∀ q ∈ ps, q.wf = true := fun q hq => hps q (List.mem_cons_of_mem _ hq)
    obtain ⟨h1, h2, h3, h4⟩ := property_wf_parts hp
    obtain ⟨hk1, hk2⟩ := Property.key_text hp
    simp only [fields_text, Property.text, List.append_assoc, List.cons_append, List.nil_append]
    rw [bind_ok _ (skip_ws_solid p.w1 h1 _ (solid_cons _ (by decide)) l e), read_fields,
      bind_ok _ (next_c_cons 44 _ _ e)]
    simp only [show ¬ ((44 : Nat) = 125) by decide, if_false, if_true]
    rw [bind_ok _ (skip_ws_solid p.w2 h2 _ (solid_quoted _ _) _ e),
      bind_ok _ (next_string_quoted p.key hk1 hk2 _ _ e),
      bind_ok _ (skip_ws_solid p.w3 h3 _ (solid_cons _ (by decide)) _ e),
      bind_ok _ (expect_c_ok 58 (by decide) _ _ e),
      bind_ok _ (skip_ws_solid p.w4 h4 _ (solid_value p hp _) _ e),
      bind_ok _ (read_value_run p hp ps w hps2 hw rest _ e),
      ih hps2 f (by simp only [List.length_cons] at hf; omega)]
    simp only [newlines_append, newlines_cons, Res.ok.injEq, State.mk.injEq, true_and, and_true]
    simp
    omega

/-! ## Objects -/

theorem type_name_text {t : List Nat} (ht : t ∈ type_names) :
    is_text t = true ∧ t.length ≤ 128 := by
  simp only [type_names, List.mem_cons, List.mem_singleton, List.not_mem_nil, or_false] at ht
  rcases ht with rfl | rfl | rfl <;> decide

theorem read_type_known (t : List Nat) (ht : t ∈ type_names) (rest : List Nat) (l : Nat)
    (e : List Diag) :
    read_type ⟨quoted t ++ rest, l, e⟩ = Res.ok () ⟨rest, l + newlines (quoted t), e⟩ := by
  obtain ⟨h1, h2⟩ := type_name_text ht
  unfold read_type
  rw [bind_ok _ (next_string_quoted t h1 h2 rest l e)]
  simp only [type_names, List.mem_cons, List.mem_singleton, List.not_mem_nil, or_false] at ht
  rcases ht with rfl | rfl | rfl
  · rfl
  · rw [if_neg (by decide), if_pos rfl]; rfl
  · rw [if_neg (by decide), if_neg (by decide), if_pos rfl]; rfl

theorem read_type_unknown (t : List Nat) (ht : t ∉ type_names) (h1 : is_text t = true)
    (h2 : t.length ≤ 128) (rest : List Nat) (l : Nat) (e : List Diag) :
    read_type ⟨quoted t ++ rest, l, e⟩ = Res.exit (Diag.UnknownType t l) ⟨rest, l, e⟩ := by
  unfold read_type
  rw [bind_ok _ (next_string_run t h1 h2 rest l e)]
  simp only [type_names, List.mem_cons, List.mem_singleton, List.not_mem_nil, or_false,
    not_or] at ht
  rw [if_neg ht.1, if_neg ht.2.1, if_neg ht.2.2]
  rfl

theorem fgetc_cons (c : Nat) (r : List Nat) (l : Nat) (e : List Diag) :
    fgetc ⟨c :: r, l, e⟩ = Res.ok (some c) ⟨r, l, e⟩ := rfl

/-- From an opening brace to the end of a recognised type value, nothing fails. -/
theorem read_objects_type (w1 w2 w3 t : List Nat) (h1 : is_ws w1 = true) (h2 : is_ws w2 = true)
    (h3 : is_ws w3 = true) (ht : t ∈ type_names) (fuel : Nat) (x : List Nat) (l : Nat)
    (e : List Diag) :
    read_objects (fuel + 1)
        ⟨123 :: (w1 ++ (quoted (bytes "type") ++ (w2 ++ 58 :: (w3 ++ (quoted t ++ x))))), l, e⟩
      = object_fields fuel ⟨x, l + newlines w1 + newlines w2 + newlines w3, e⟩ := by
  rw [read_objects, bind_ok _ (fgetc_cons 123 _ l e)]
  simp only [show ¬ (some (123 : Nat) = some 93) by decide, if_false, if_true]
  rw [bind_ok _ (skip_ws_solid w1 h1 _ (solid_quoted _ _) _ e),
    bind_ok _ (next_string_run (bytes "type") (by decide) (by decide) _ _ e)]
  simp only [ne_eq, not_true_eq_false, if_false]
  rw [bind_ok _ (skip_ws_solid w2 h2 _ (solid_cons _ (by decide)) _ e),
    bind_ok _ (expect_c_ok 58 (by decide) _ _ e),
    bind_ok _ (skip_ws_solid w3 h3 _ (solid_quoted _ _) _ e),
    bind_ok _ (read_type_known t ht x _ e),
    newlines_quoted t (type_name_text ht).1]
  rfl

/-! ## The step budget -/

theorem Res.le_refl {α : Type} (r : Res α) : Res.le r r := Or.inr rfl

theorem bind_le {α β : Type} (x : M α) (k1 k2 : α → M β)
    (h : ∀ v s, Res.le (k1 v s) (k2 v s)) (s : State) :
    Res.le ((x >>= k1) s) ((x >>= k2) s) := by
  rw [bind_apply, bind_apply]
  cases x s with
  | ok v s1 => exact h v s1
  | exit d s1 => exact Res.le_refl _
  | unfinished => exact Res.le_refl _

theorem read_fields_step (fuel : Nat) (s : State) :
    Res.le (read_fields fuel s) (read_fields (fuel + 1) s) := by
  induction fuel generalizing s with
  | zero => exact Or.inl rfl
  | succ f ih =>
    rw [read_fields, read_fields]
    apply bind_le
    intro c s1
    by_cases h1 : c = 125
    · simp only [h1, if_true]; exact Res.le_refl _
    by_cases h2 : c = 44
    · simp only [h2, show ¬ ((44 : Nat) = 125) by decide, if_false, if_true]
      apply bind_le; intro _ s2
      apply bind_le; intro _ s3
      apply bind_le; intro _ s4
      apply bind_le; intro _ s5
      apply bind_le; intro _ s6
      apply bind_le; intro _ s7
      apply bind_le; intro _ s8
      exact ih s8
    · simp only [h1, h2, if_false]; exact Res.le_refl _

theorem read_objects_step (fuel : Nat) (s : State) :
    Res.le (read_objects fuel s) (read_objects (fuel + 1) s) := by
  induction fuel generalizing s with
  | zero => exact Or.inl rfl
  | succ f ih =>
    rw [read_objects, read_objects]
    apply bind_le
    intro c s1
    by_cases h1 : c = some 93
    · simp only [h1, if_true]; exact Res.le_refl _
    by_cases h2 : c = some 123
    · simp only [h2, show ¬ (some (123 : Nat) = some 93) by decide, if_false, if_true]
      apply bind_le; intro _ s2
      apply bind_le; intro key s3
      by_cases h3 : key ≠ bytes "type"
      · simp only [if_pos h3]; exact Res.le_refl _
      simp only [if_neg h3]
      apply bind_le; intro _ s4
      apply bind_le; intro _ s5
      apply bind_le; intro _ s6
      apply bind_le; intro _ s7
      apply bind_le; intro _ s8
      rw [bind_apply, bind_apply]
      rcases read_fields_step f s8 with h | h
      · rw [h]; exact Or.inl rfl
      · rw [← h]
        cases read_fields f s8 with
        | ok v s9 =>
          simp only
          apply bind_le; intro _ s10
          apply bind_le; intro c2 s11
          by_cases h4 : c2 = 44
          · simp only [h4, if_true]
            apply bind_le; intro _ s12
            exact ih s12
          · simp only [h4, if_false]; exact Res.le_refl _
        | exit d s9 => exact Res.le_refl _
        | unfinished => exact Res.le_refl _
    · simp only [h1, h2, if_false]; exact ih s1

theorem read_objects_mono (fuel k : Nat) (s : State) :
    Res.le (read_objects fuel s) (read_objects (fuel + k) s) := by
  induction k with
  | zero => exact Res.le_refl _
  | succ k ih =>
    rcases ih with h | h
    · exact Or.inl h
    · rw [h]; exact read_objects_step (fuel + k) s

theorem read_fields_mono (fuel k : Nat) (s : State) :
    Res.le (read_fields fuel s) (read_fields (fuel + k) s) := by
  induction k with
  | zero => exact Res.le_refl _
  | succ k ih =>
    rcases ih with h | h
    · exact Or.inl h
    · rw [h]; exact read_fields_step (fuel + k) s

theorem read_scene_mono (fuel k : Nat) (contents : Option (List Nat)) :
    Res.le (read_scene fuel contents) (read_scene (fuel + k) contents) := by
  cases contents with
  | none => exact Res.le_refl _
  | some input =>
    unfold read_scene
    simp only
    apply bind_le; intro _ s1
    apply bind_le; intro _ s2
    apply bind_le; intro _ s3
    exact read_objects_mono fuel k s3

/-- An outcome reached with some budget is the outcome with any larger one. -/
theorem read_scene_stable {fuel : Nat} {contents : Option (List Nat)} {r : Res Unit}
    (h : read_scene fuel contents = r) (hr : r ≠ Res.unfinished) (fuel2 : Nat)
    (hf : fuel ≤ fuel2) : read_scene fuel2 contents = r := by
  obtain ⟨k, rfl⟩ : ∃ k, fuel2 = fuel + k := ⟨fuel2 - fuel, by omega⟩
  rcases read_scene_mono fuel k contents with h2 | h2
  · rw [h] at h2; exact absurd h2 hr
  · rw [← h2, h]

/-! ## Well-formed documents -/

theorem bind_bind {α β γ : Type} (x : M α) (y : α → M β) (k : β → M γ) (s : State) :
    (x >>= fun a => y a >>= k) s = ((x >>= y) >>= k) s := by
  simp only [bind_apply]
  cases x s <;> rfl

theorem obj_wf_parts {o : Obj} (ho : o.wf = true) :
    is_ws o.w1 = true ∧ is_ws o.w2 = true ∧ is_ws o.w3 = true ∧ o.type ∈ type_names ∧
    (∀ p ∈ o.props, p.wf = true) ∧ is_ws o.w4 = true := by
  simp only [Obj.wf, Bool.and_eq_true, decide_eq_true_eq, List.all_eq_true] at ho
  exact ⟨ho.1.1.1.1.1, ho.1.1.1.1.2, ho.1.1.1.2, ho.1.1.2, ho.1.2, ho.2⟩

theorem Obj.newlines_text (o : Obj) (ho : o.wf = true) :
    newlines o.text
      = newlines o.w1 + newlines o.w2 + newlines o.w3 + newlines (fields_text o.props o.w4) := by
  obtain ⟨_, _, _, h4, _, _⟩ := obj_wf_parts ho
  simp only [Obj.text, newlines_cons, newlines_append,
    newlines_quoted _ (type_name_text h4).1,
    newlines_quoted (bytes "type") (by decide)]
  simp
  omega

/-- A well-formed object is read whole, up to and including its closing
brace, and nothing is printed. -/
theorem read_objects_object (o : Obj) (ho : o.wf = true) (fuel : Nat)
    (hf : o.props.length < fuel) (x : List Nat) (l : Nat) (e : List Diag) :
    read_objects (fuel + 1) ⟨o.text ++ x, l, e⟩
      = object_end fuel ⟨x, l + newlines o.text, e⟩ := by
  obtain ⟨h1, h2, h3, h4, h5, h6⟩ := obj_wf_parts ho
  rw [Obj.newlines_text o ho]
  simp only [Obj.text, List.append_assoc, List.cons_append, List.nil_append]
  rw [read_objects_type o.w1 o.w2 o.w3 o.type h1 h2 h3 h4]
  unfold object_fields
  rw [bind_bind, bind_ok _ (read_fields_run o.props o.w4 h5 h6 fuel hf x _ e)]
  simp only [Res.ok.injEq, State.mk.injEq, true_and, and_true, Nat.add_assoc]

theorem solid_obj (o : Obj) (x : List Nat) : solid (o.text ++ x) :=
  ⟨123, _, rfl, by decide⟩

theorem solid_items (init : List Item) (x : List Nat) (hx : solid x) :
    solid (items_text init ++ x) := by
  cases init with
  | nil => exact hx
  | cons it more => exact ⟨123, _, rfl, by decide⟩

theorem item_wf_parts {it : Item} (h : it.wf = true) :
    it.obj.wf = true ∧ is_ws it.w1 = true ∧ is_ws it.w2 = true := by
  simp only [Item.wf, Bool.and_eq_true] at h
  exact ⟨h.1.1, h.1.2, h.2⟩

/-- The objects before the last one are read one after the other, each
costing one round of the outer loop. -/
theorem read_objects_items (init : List Item) (hinit : ∀ it ∈ init, it.wf = true)
    (x : List Nat) (hx : solid x) (fuel : Nat)
    (hf : ∀ it ∈ init, it.obj.props.length + init.length < fuel) (l : Nat) (e : List Diag) :
    read_objects fuel ⟨items_text init ++ x, l, e⟩
      = read_objects (fuel - init.length) ⟨x, l + newlines (items_text init), e⟩ := by
  induction init generalizing fuel l with
  | nil => simp [items_text, newlines]
  | cons it more ih =>
    have hit := hinit it (by simp)
    obtain ⟨ho, h1, h2⟩ := item_wf_parts hit
    have hfit := hf it (by simp)
    simp only [List.length_cons] at hfit
    obtain ⟨f, rfl⟩ : ∃ f, fuel = f + 1 := ⟨fuel - 1, by omega⟩
    simp only [items_text, Item.text, List.append_assoc, List.cons_append]
    rw [read_objects_object it.obj ho f (by omega)]
    unfold object_end
    rw [bind_ok _ (skip_ws_solid it.w1 h1 _ (solid_cons _ (by decide)) _ e),
      bind_ok _ (next_c_cons 44 _ _ e)]
    simp only [if_true]
    rw [bind_ok _ (skip_ws_solid it.w2 h2 _ (solid_items more x hx) _ e),
      ih (fun j hj => hinit j (List.mem_cons_of_mem _ hj)) f
        (fun j hj => by
          have := hf j (List.mem_cons_of_mem _ hj)
          simp only [List.length_cons] at this
          omega)]
    simp only [newlines_append, newlines_cons, List.length_cons, Nat.add_sub_add_right]
    simp only [show ¬ ((44 : Nat) = 10) by decide, if_false]
    congr 2
    omega

theorem props_le_total (init : List Item) : ∀ it ∈ init, it.obj.props.length ≤ props_total init := by
  induction init with
  | nil => simp
  | cons a more ih =>
    intro it hit
    rcases List.mem_cons.mp hit with rfl | h
    · simp [props_total]
    · have := ih it h
      simp only [props_total]; omega

/-- The opening of the array and the objects before the one at `x`. -/
theorem read_scene_head (w0 w1 : List Nat) (init : List Item) (h0 : is_ws w0 = true)
    (h1 : is_ws w1 = true) (hinit : ∀ it ∈ init, it.wf = true) (x : List Nat) (hx : solid x)
    (fuel : Nat) (hf : init.length + props_total init < fuel) :
    read_scene fuel (some (scene_head w0 w1 init ++ x))
      = read_objects (fuel - init.length) ⟨x, 1 + newlines (scene_head w0 w1 init), []⟩ := by
  unfold read_scene
  simp only [scene_head, List.append_assoc, List.cons_append]
  rw [bind_ok _ (skip_ws_solid w0 h0 _ (solid_cons _ (by decide)) 1 []),
    bind_ok _ (expect_c_ok 91 (by decide) _ _ []),
    bind_ok _ (skip_ws_solid w1 h1 _ (solid_items init x hx) _ []),
    read_objects_items init hinit x hx fuel
      (fun it hit => by have := props_le_total init it hit; omega)]
  simp only [newlines_append, newlines_cons, show ¬ ((91 : Nat) = 10) by decide, if_false]
  congr 2
  omega

theorem doc_wf_parts {d : Doc} (hd : d.wf = true) :
    is_ws d.w0 = true ∧ is_ws d.w1 = true ∧ (∀ it ∈ d.init, it.wf = true) ∧
    d.last.wf = true ∧ is_ws d.w2 = true := by
  simp only [Doc.wf, Bool.and_eq_true, List.all_eq_true] at hd
  exact ⟨hd.1.1.1.1, hd.1.1.1.2, hd.1.1.2, hd.1.2, hd.2⟩

/-- A well-formed document is read up to and including its closing bracket:
`read_scene` returns, nothing is printed, and `line` has grown by the
newlines of the document. -/
theorem read_scene_doc (d : Doc) (hd : d.wf = true) (rest : List Nat) (fuel : Nat)
    (hf : d.rounds ≤ fuel) :
    read_scene fuel (some (d.text ++ rest)) = Res.ok () ⟨rest, 1 + newlines d.text, []⟩ := by
  obtain ⟨h0, h1, hinit, hlast, h2⟩ := doc_wf_parts hd
  unfold Doc.rounds at hf
  simp only [Doc.text, List.append_assoc, List.cons_append, List.nil_append]
  rw [read_scene_head d.w0 d.w1 d.init h0 h1 hinit _ (solid_obj _ _) fuel (by omega)]
  obtain ⟨f, hfeq⟩ : ∃ f, fuel - d.init.length = f + 1 := ⟨fuel - d.init.length - 1, by omega⟩
  rw [hfeq, read_objects_object d.last hlast f (by omega)]
  unfold object_end
  rw [bind_ok _ (skip_ws_solid d.w2 h2 _ (solid_cons _ (by decide)) _ []),
    bind_ok _ (next_c_cons 93 _ _ [])]
  simp only [show ¬ ((93 : Nat) = 44) by decide, if_false, if_true, pure_apply,
    newlines_append, newlines_cons, show ¬ ((93 : Nat) = 10) by decide]
  simp only [Res.ok.injEq, State.mk.injEq, true_and, and_true]
  simp [newlines]
  omega

/-! ## Claims on `read_scene` and the primitives -/

/-- Claim C1, as amended: for every well-formed document with at least one
object in which `width`, `height` and `radius` are followed by a number and
`color`, `position` and `normal` by a 3-number vector, `read_scene` reads the
document up to and including the closing `]` (whatever follows is left
unread), returns normally and prints no message, for every step budget from
some bound on. -/
theorem read_scene_well_formed (d : Doc) (rest : List Nat) (hd : d.wf = true) :
    ∃ N, ∀ fuel, N ≤ fuel →
      read_scene fuel (some (d.text ++ rest)) = Res.ok () ⟨rest, 1 + newlines d.text, []⟩ :=
  ⟨d.rounds, fun fuel hf => read_scene_doc d hd rest fuel hf⟩

theorem read_scene_well_formed_witness :
    ∃ N, ∀ fuel, N ≤ fuel →
      read_scene fuel (some ((doc_lit [plane_obj] camera_obj).text ++ bytes " tail"))
        = Res.ok () ⟨bytes " tail", 1 + newlines (doc_lit [plane_obj] camera_obj).text, []⟩ :=
  read_scene_well_formed (doc_lit [plane_obj] camera_obj) (bytes " tail") (by decide!)

/-- Claim C1 fails as stated: `[{"type":"camera","width":[1,2,3]}]` is a
document of the grammar (the key `width` followed by a vector), and on it
`read_scene` ends the process with `Unexpected value on line 1` after
reading the `[` of the vector; with no step budget does it return. -/
theorem read_scene_grammar_counterexample :
    width_vector_doc.grammatical = true ∧
    width_vector_doc.text = bytes "[\x7b\"type\":\"camera\",\"width\":[1,2,3]\x7d]" ∧
    (∀ fuel, 3 ≤ fuel → read_scene fuel (some width_vector_doc.text)
      = Res.exit (Diag.UnexpectedValue 1) ⟨bytes "1,2,3]\x7d]", 1, []⟩) ∧
    (∀ fuel s, read_scene fuel (some width_vector_doc.text) ≠ Res.ok () s) := by
  have h3 : read_scene 3 (some width_vector_doc.text)
      = Res.exit (Diag.UnexpectedValue 1) ⟨bytes "1,2,3]\x7d]", 1, []⟩ := by decide!
  have hall : ∀ fuel, 3 ≤ fuel → read_scene fuel (some width_vector_doc.text)
      = Res.exit (Diag.UnexpectedValue 1) ⟨bytes "1,2,3]\x7d]", 1, []⟩ :=
    fun fuel hf => read_scene_stable h3 (by simp) fuel hf
  refine ⟨by decide!, by decide!, hall, ?_⟩
  intro fuel s hok
  have := read_scene_stable hok (by simp) (fuel + 3) (by omega)
  rw [hall (fuel + 3) (by omega)] at this
  cases this

/-- Claim C2 fails as stated: `read_scene` returns no value, and its outcome is
the same on a one-object document, on the two-object document
`[{"type":"plane","normal":[0,1,0]},{"type":"camera","width":2,"height":2}]`
and on that document with its objects swapped; so nothing read off the
outcome is a list of the objects, of the right length or in file order. -/
theorem read_scene_no_document_counterexample :
    (doc_lit [] camera_obj).wf = true ∧ (doc_lit [plane_obj] camera_obj).wf = true ∧
    (doc_lit [plane_obj] camera_obj).text = bytes
      "[\x7b\"type\":\"plane\",\"normal\":[0,1,0]\x7d,\x7b\"type\":\"camera\",\"width\":2,\"height\":2\x7d]" ∧
    read_scene 6 (some (doc_lit [] camera_obj).text) = Res.ok () ⟨[], 1, []⟩ ∧
    read_scene 6 (some (doc_lit [plane_obj] camera_obj).text) = Res.ok () ⟨[], 1, []⟩ ∧
    read_scene 6 (some (doc_lit [camera_obj] plane_obj).text) = Res.ok () ⟨[], 1, []⟩ ∧
    (¬ ∃ document : Res Unit → List Obj,
      (document (read_scene 6 (some (doc_lit [] camera_obj).text))).length = 1 ∧
      (document (read_scene 6 (some (doc_lit [plane_obj] camera_obj).text))).length = 2) ∧
    (¬ ∃ document : Res Unit → List Obj,
      document (read_scene 6 (some (doc_lit [plane_obj] camera_obj).text))
        = (doc_lit [plane_obj] camera_obj).objects ∧
      document (read_scene 6 (some (doc_lit [camera_obj] plane_obj).text))
        = (doc_lit [camera_obj] plane_obj).objects) := by
  have h1 : read_scene 6 (some (doc_lit [] camera_obj).text) = Res.ok () ⟨[], 1, []⟩ := by
    decide!
  have h2 : read_scene 6 (some (doc_lit [plane_obj] camera_obj).text)
      = Res.ok () ⟨[], 1, []⟩ := by decide!
  have h3 : read_scene 6 (some (doc_lit [camera_obj] plane_obj).text)
      = Res.ok () ⟨[], 1, []⟩ := by decide!
  refine ⟨by decide!, by decide!, by decide!, h1, h2, h3, ?_, ?_⟩
  · rintro ⟨document, ha, hb⟩
    rw [h1] at ha
    rw [h2] at hb
    omega
  · rintro ⟨document, ha, hb⟩
    rw [h2] at ha
    rw [h3] at hb
    rw [ha] at hb
    exact absurd hb (by decide!)

/-- Claim C2, as amended: for two well-formed documents with the same number
of newlines, whatever their objects and however many, `read_scene` has the
same outcome: it reads each document to its closing `]`, in file order, and
returns normally without a value; no scene document is built. -/
theorem read_scene_outcome_independent (d1 d2 : Doc) (rest : List Nat) (h1 : d1.wf = true)
    (h2 : d2.wf = true) (hn : newlines d1.text = newlines d2.text) :
    ∃ N, ∀ fuel, N ≤ fuel →
      read_scene fuel (some (d1.text ++ rest)) = Res.ok () ⟨rest, 1 + newlines d1.text, []⟩ ∧
      read_scene fuel (some (d2.text ++ rest)) = read_scene fuel (some (d1.text ++ rest)) := by
  refine ⟨d1.rounds + d2.rounds, fun fuel hf => ?_⟩
  rw [read_scene_doc d1 h1 rest fuel (by omega), read_scene_doc d2 h2 rest fuel (by omega), hn]
  exact ⟨rfl, rfl⟩

theorem read_scene_outcome_independent_witness :
    ∃ N, ∀ fuel, N ≤ fuel →
      read_scene fuel (some ((doc_lit [] camera_obj).text ++ []))
        = Res.ok () ⟨[], 1 + newlines (doc_lit [] camera_obj).text, []⟩ ∧
      read_scene fuel (some ((doc_lit [plane_obj] camera_obj).text ++ []))
        = read_scene fuel (some ((doc_lit [] camera_obj).text ++ [])) :=
  read_scene_outcome_independent (doc_lit [] camera_obj) (doc_lit [plane_obj] camera_obj) []
    (by decide!) (by decide!) (by decide!)

theorem read_objects_at_end (fuel l : Nat) (e : List Diag) :
    read_objects fuel ⟨[], l, e⟩ = Res.unfinished := by
  induction fuel with
  | zero => rfl
  | succ f ih =>
    rw [read_objects]
    have hg : fgetc ⟨[], l, e⟩ = Res.ok none ⟨[], l, e⟩ := rfl
    rw [bind_ok _ hg]
    simp only [show ¬ ((none : Option Nat) = some 93) by decide,
      show ¬ ((none : Option Nat) = some 123) by decide, if_false]
    exact ih

/-- Claim C3 against the code: on the input `[x` the outer loop of
`read_scene` reads `x` with `fgetc`, reaches the end of the input, and then
goes round for ever on `EOF`: no step budget lets `read_scene` stop, with
`UnexpectedEndOfInput` or otherwise. -/
theorem read_scene_spins_at_end_of_input :
    ∀ fuel, read_scene fuel (some (bytes "[x")) = Res.unfinished := by
  intro fuel
  have h : read_scene fuel (some (bytes "[x")) = read_objects fuel ⟨[120], 1, []⟩ := by
    unfold read_scene
    have hb : bytes "[x" = [] ++ 91 :: ([] ++ [120]) := by decide
    simp only [hb]
    rw [bind_ok _ (skip_ws_solid [] (by decide) _ (solid_cons _ (by decide)) 1 []),
      bind_ok _ (expect_c_ok 91 (by decide) _ _ []),
      bind_ok _ (skip_ws_solid [] (by decide) _ (solid_cons _ (by decide)) _ [])]
    rfl
  rw [h]
  cases fuel with
  | zero => rfl
  | succ f =>
    rw [read_objects, bind_ok _ (fgetc_cons 120 [] 1 [])]
    simp only [show ¬ (some (120 : Nat) = some 93) by decide,
      show ¬ (some (120 : Nat) = some 123) by decide, if_false]
    exact read_objects_at_end f 1 []

/-- Claim C6 against the code: `next_number` never fails. On every state it
returns, prints nothing and leaves `line` alone; on the malformed text `abc`
it returns an indeterminate value with nothing read, and the scene
`[{"type":"camera","width":}]`, whose width has no number at all, is read by
`read_scene` to the end without any message. -/
theorem next_number_never_fails :
    (∀ s : State, ∃ v s1, next_number s = Res.ok v s1 ∧ s1.line = s.line ∧
      s1.stderr = s.stderr) ∧
    next_number ⟨bytes "abc\x7d]", 1, []⟩
      = Res.ok Value.indeterminate ⟨bytes "abc\x7d]", 1, []⟩ ∧
    (∀ fuel, 3 ≤ fuel →
      read_scene fuel (some (bytes "[\x7b\"type\":\"camera\",\"width\":\x7d]"))
        = Res.ok () ⟨[], 1, []⟩) := by
  refine ⟨?_, by decide!, ?_⟩
  · intro s
    unfold next_number
    rcases h : scan_float s.json with ⟨_ | text, rest⟩
    · exact ⟨_, _, rfl, rfl, rfl⟩
    · exact ⟨_, _, rfl, rfl, rfl⟩
  · intro fuel hf
    have h3 : read_scene 3 (some (bytes "[\x7b\"type\":\"camera\",\"width\":\x7d]"))
        = Res.ok () ⟨[], 1, []⟩ := by decide!
    exact read_scene_stable h3 (by simp) fuel hf

/-- Claim C8: when the first key of an object, read right after `{` and
optional white space, is a string other than `type`, `read_scene` ends the
process with `MissingTypeKey` carrying the current line, and the input after
that key is left unread. The object may be the first of the array or follow
well-formed objects. -/
theorem read_scene_missing_type_key (w0 w1 : List Nat) (init : List Item)
    (w k rest : List Nat) (h0 : is_ws w0 = true) (h1 : is_ws w1 = true)
    (hinit : ∀ it ∈ init, it.wf = true) (hw : is_ws w = true)
    (hk : is_text k = true) (hlen : k.length ≤ 128) (hne : k ≠ bytes "type") :
    ∃ N, ∀ fuel, N ≤ fuel →
      read_scene fuel (some (scene_head w0 w1 init ++ 123 :: (w ++ (quoted k ++ rest))))
        = Res.exit (Diag.MissingTypeKey (1 + newlines (scene_head w0 w1 init) + newlines w))
            ⟨rest, 1 + newlines (scene_head w0 w1 init) + newlines w, []⟩ := by
  refine ⟨init.length + props_total init + 1, fun fuel hf => ?_⟩
  rw [read_scene_head w0 w1 init h0 h1 hinit _ (solid_cons _ (by decide)) fuel (by omega)]
  obtain ⟨f, hfeq⟩ : ∃ f, fuel - init.length = f + 1 := ⟨fuel - init.length - 1, by omega⟩
  rw [hfeq, read_objects, bind_ok _ (fgetc_cons 123 _ _ [])]
  simp only [show ¬ (some (123 : Nat) = some 93) by decide, if_false, if_true]
  rw [bind_ok _ (skip_ws_solid w hw _ (solid_quoted _ _) _ []),
    bind_ok _ (next_string_run k hk hlen _ _ []), if_pos hne]
  rfl

theorem read_scene_missing_type_key_witness :
    ∃ N, ∀ fuel, N ≤ fuel →
      read_scene fuel (some (scene_head [] [10] [⟨plane_obj, [], [10]⟩]
          ++ 123 :: ([32] ++ (quoted (bytes "kind") ++ bytes ":\"camera\"\x7d]"))))
        = Res.exit (Diag.MissingTypeKey
              (1 + newlines (scene_head [] [10] [⟨plane_obj, [], [10]⟩]) + newlines [32]))
            ⟨bytes ":\"camera\"\x7d]",
              1 + newlines (scene_head [] [10] [⟨plane_obj, [], [10]⟩]) + newlines [32], []⟩ :=
  read_scene_missing_type_key [] [10] [⟨plane_obj, [], [10]⟩] [32] (bytes "kind")
    (bytes ":\"camera\"\x7d]") (by decide) (by decide) (by decide!) (by decide) (by decide)
    (by decide) (by decide)

/-- Claim C9: when the value of the `type` key of an object is a string `v`
other than `camera`, `sphere` and `plane`, `read_scene` ends the process with
`UnknownType` carrying `v` and the current line; when `v` is one of the
three, nothing fails up to that point: the outcome is that of the rest of
the object (lines 206-251) run from right after the value, nothing printed. -/
theorem read_scene_type_value (w0 w1 : List Nat) (init : List Item)
    (a b c v rest : List Nat) (h0 : is_ws w0 = true) (h1 : is_ws w1 = true)
    (hinit : ∀ it ∈ init, it.wf = true) (ha : is_ws a = true) (hb : is_ws b = true)
    (hc : is_ws c = true) (hv : is_text v = true) (hlen : v.length ≤ 128) :
    ∃ N, ∀ fuel, N ≤ fuel →
      (v ∉ type_names →
        read_scene fuel (some (scene_head w0 w1 init ++
            123 :: (a ++ (quoted (bytes "type") ++ (b ++ 58 :: (c ++ (quoted v ++ rest)))))))
          = Res.exit
              (Diag.UnknownType v (1 + newlines (scene_head w0 w1 init) + newlines a
                + newlines b + newlines c))
              ⟨rest, 1 + newlines (scene_head w0 w1 init) + newlines a + newlines b
                + newlines c, []⟩) ∧
      (v ∈ type_names →
        read_scene fuel (some (scene_head w0 w1 init ++
            123 :: (a ++ (quoted (bytes "type") ++ (b ++ 58 :: (c ++ (quoted v ++ rest)))))))
          = object_fields (fuel - init.length - 1)
              ⟨rest, 1 + newlines (scene_head w0 w1 init) + newlines a + newlines b
                + newlines c, []⟩) := by
  refine ⟨init.length + props_total init + 1, fun fuel hf => ?_⟩
  rw [read_scene_head w0 w1 init h0 h1 hinit _ (solid_cons _ (by decide)) fuel (by omega)]
  obtain ⟨f, hfeq⟩ : ∃ f, fuel - init.length = f + 1 := ⟨fuel - init.length - 1, by omega⟩
  rw [hfeq, Nat.add_sub_cancel]
  constructor
  · intro hv2
    rw [read_objects, bind_ok _ (fgetc_cons 123 _ _ [])]
    simp only [show ¬ (some (123 : Nat) = some 93) by decide, if_false, if_true]
    rw [bind_ok _ (skip_ws_solid a ha _ (solid_quoted _ _) _ []),
      bind_ok _ (next_string_run (bytes "type") (by decide) (by decide) _ _ [])]
    simp only [ne_eq, not_true_eq_false, if_false]
    rw [bind_ok _ (skip_ws_solid b hb _ (solid_cons _ (by decide)) _ []),
      bind_ok _ (expect_c_ok 58 (by decide) _ _ []),
      bind_ok _ (skip_ws_solid c hc _ (solid_quoted _ _) _ []),
      bind_exit _ (read_type_unknown v hv2 hv hlen rest _ [])]
  · intro hv2
    rw [read_objects_type a b c v ha hb hc hv2]

theorem read_scene_type_value_witness :
    ∃ N, ∀ fuel, N ≤ fuel →
      (bytes "box" ∉ type_names →
        read_scene fuel (some (scene_head [] [] [] ++
            123 :: ([] ++ (quoted (bytes "type") ++ ([] ++ 58 :: ([] ++
              (quoted (bytes "box") ++ bytes "\x7d]")))))))
          = Res.exit
              (Diag.UnknownType (bytes "box") (1 + newlines (scene_head [] [] []) + newlines []
                + newlines [] + newlines []))
              ⟨bytes "\x7d]", 1 + newlines (scene_head [] [] []) + newlines [] + newlines []
                + newlines [], []⟩) ∧
      (bytes "box" ∈ type_names →
        read_scene fuel (some (scene_head [] [] [] ++
            123 :: ([] ++ (quoted (bytes "type") ++ ([] ++ 58 :: ([] ++
              (quoted (bytes "box") ++ bytes "\x7d]")))))))
          = object_fields (fuel - ([] : List Item).length - 1)
              ⟨bytes "\x7d]", 1 + newlines (scene_head [] [] []) + newlines [] + newlines []
                + newlines [], []⟩) :=
  read_scene_type_value [] [] [] [] [] [] (bytes "box") (bytes "\x7d]") (by decide) (by decide)
    (by simp) (by decide) (by decide) (by decide) (by decide) (by decide)

/-- Claim C10, as amended: a property whose key is one of the six known keys,
with a number after `width`, `height` and `radius` and a vector after
`color`, `position` and `normal`, is read and accepted whatever the type of
the object: on `[{"type":t p}]`, for each of the three types `t`,
`read_scene` returns normally and prints nothing. -/
theorem read_scene_any_property_any_type (t : List Nat) (p : Property)
    (ht : t ∈ type_names) (hp : p.wf = true) :
    ∀ fuel, 3 ≤ fuel →
      read_scene fuel (some (one_property_doc t p).text)
        = Res.ok () ⟨[], 1 + newlines p.text, []⟩ := by
  intro fuel hf
  have hd : (one_property_doc t p).wf = true := by
    simp only [one_property_doc, Doc.wf, Obj.wf, Bool.and_eq_true, decide_eq_true_eq,
      List.all_eq_true]
    simp [is_ws, ht, hp]
  have h := read_scene_doc (one_property_doc t p) hd [] fuel
    (by simp only [Doc.rounds, one_property_doc, props_total]; simpa using hf)
  rw [List.append_nil] at h
  rw [h]
  have hn : newlines (one_property_doc t p).text = newlines p.text := by
    simp only [one_property_doc, Doc.text, scene_head, Obj.text, items_text, fields_text,
      newlines_append, newlines_cons, newlines_quoted t (type_name_text ht).1,
      newlines_quoted (bytes "type") (by decide)]
    simp [newlines]
  rw [hn]

theorem read_scene_any_property_any_type_witness :
    read_scene 3 (some (one_property_doc (bytes "plane")
        (prop_lit (bytes "radius") (PropValue.number (int_lit [49])))).text)
      = Res.ok () ⟨[], 1 + newlines
          (prop_lit (bytes "radius") (PropValue.number (int_lit [49]))).text, []⟩ :=
  read_scene_any_property_any_type (bytes "plane")
    (prop_lit (bytes "radius") (PropValue.number (int_lit [49]))) (by decide) (by decide!)
    3 (Nat.le_refl 3)

/-- Claim C10 fails as stated: `radius` on a plane, `width` on a sphere and
`normal` on a camera are all accepted: `read_scene` returns normally and
prints nothing. -/
theorem read_scene_foreign_property_counterexample :
    (∀ fuel, 3 ≤ fuel →
      read_scene fuel (some (bytes "[\x7b\"type\":\"plane\",\"radius\":1\x7d]"))
        = Res.ok () ⟨[], 1, []⟩) ∧
    (∀ fuel, 3 ≤ fuel →
      read_scene fuel (some (bytes "[\x7b\"type\":\"sphere\",\"width\":1\x7d]"))
        = Res.ok () ⟨[], 1, []⟩) ∧
    (∀ fuel, 3 ≤ fuel →
      read_scene fuel (some (bytes "[\x7b\"type\":\"camera\",\"normal\":[0,1,0]\x7d]"))
        = Res.ok () ⟨[], 1, []⟩) := by
  have h1 : read_scene 3 (some (bytes "[\x7b\"type\":\"plane\",\"radius\":1\x7d]"))
      = Res.ok () ⟨[], 1, []⟩ := by decide!
  have h2 : read_scene 3 (some (bytes "[\x7b\"type\":\"sphere\",\"width\":1\x7d]"))
      = Res.ok () ⟨[], 1, []⟩ := by decide!
  have h3 : read_scene 3 (some (bytes "[\x7b\"type\":\"camera\",\"normal\":[0,1,0]\x7d]"))
      = Res.ok () ⟨[], 1, []⟩ := by decide!
  exact ⟨fun fuel hf => read_scene_stable h1 (by simp) fuel hf,
    fun fuel hf => read_scene_stable h2 (by simp) fuel hf,
    fun fuel hf => read_scene_stable h3 (by simp) fuel hf⟩

/-! ## White space, the head of the object loop and the command line -/

/-- Claim C15: on `w ++ c :: rest`, with `w` a run of white space and `c` not
white space, `skip_ws` consumes exactly `w`: the unread input is `c :: rest`,
the next character read is `c`, `line` has grown by the newlines of `w`, and
a second `skip_ws` changes nothing. -/
theorem skip_ws_consumes_the_run (w rest : List Nat) (c l : Nat) (e : List Diag)
    (hw : ∀ x ∈ w, isspace x = true) (hc : isspace c = false) :
    skip_ws ⟨w ++ c :: rest, l, e⟩ = Res.ok () ⟨c :: rest, l + newlines w, e⟩ ∧
    (skip_ws >>= fun _ => next_c) ⟨w ++ c :: rest, l, e⟩
      = Res.ok c ⟨rest, l + newlines w, e⟩ ∧
    (skip_ws >>= fun _ => skip_ws) ⟨w ++ c :: rest, l, e⟩
      = skip_ws ⟨w ++ c :: rest, l, e⟩ := by
  have hw2 : is_ws w = true := by simpa [is_ws] using hw
  have h := skip_ws_run w hw2 c hc rest l e
  refine ⟨h, ?_, ?_⟩
  · rw [bind_ok _ h, next_c_cons, if_neg (isspace_ne_newline hc)]
    rfl
  · rw [bind_ok _ h, h]
    have := skip_ws_run [] (by decide) c hc rest (l + newlines w) e
    simpa [newlines] using this

theorem skip_ws_consumes_the_run_witness :
    skip_ws ⟨[32, 10, 9] ++ 91 :: [32], 1, []⟩ = Res.ok () ⟨91 :: [32], 1 + newlines [32, 10, 9], []⟩ ∧
    (skip_ws >>= fun _ => next_c) ⟨[32, 10, 9] ++ 91 :: [32], 1, []⟩
      = Res.ok 91 ⟨[32], 1 + newlines [32, 10, 9], []⟩ ∧
    (skip_ws >>= fun _ => skip_ws) ⟨[32, 10, 9] ++ 91 :: [32], 1, []⟩
      = skip_ws ⟨[32, 10, 9] ++ 91 :: [32], 1, []⟩ :=
  skip_ws_consumes_the_run [32, 10, 9] [32] 91 1 [] (by decide) (by decide)

theorem read_objects_junk (c : Nat) (h1 : c ≠ 93) (h2 : c ≠ 123) (fuel : Nat) (r : List Nat)
    (l : Nat) (e : List Diag) :
    read_objects (fuel + 1) ⟨c :: r, l, e⟩ = read_objects fuel ⟨r, l, e⟩ := by
  rw [read_objects, bind_ok _ (fgetc_cons c r l e)]
  have h3 : ¬ (some c = some 93) := fun h => h1 (Option.some.inj h)
  have h4 : ¬ (some c = some 123) := fun h => h2 (Option.some.inj h)
  simp only [h3, h4, if_false]

/-- Claim C11 against the code: a character at the head of the object loop
that is neither `{` nor `]` is skipped without a message, newline included
and uncounted; `[x{"type":"camera"}]` is read to the end and `read_scene`
returns with nothing printed. -/
theorem read_scene_skips_top_level_character :
    (∀ (c : Nat), c ≠ 93 → c ≠ 123 → ∀ (fuel : Nat) (r : List Nat) (l : Nat) (e : List Diag),
      read_objects (fuel + 1) ⟨c :: r, l, e⟩ = read_objects fuel ⟨r, l, e⟩) ∧
    (∀ fuel, 3 ≤ fuel →
      read_scene fuel (some (bytes "[x\x7b\"type\":\"camera\"\x7d]")) = Res.ok () ⟨[], 1, []⟩) := by
  refine ⟨fun c h1 h2 fuel r l e => read_objects_junk c h1 h2 fuel r l e, fun fuel hf => ?_⟩
  have h3 : read_scene 3 (some (bytes "[x\x7b\"type\":\"camera\"\x7d]"))
      = Res.ok () ⟨[], 1, []⟩ := by decide!
  exact read_scene_stable h3 (by simp) fuel hf

theorem read_objects_bracket (fuel : Nat) (r : List Nat) (l : Nat) (e : List Diag) :
    read_objects (fuel + 1) ⟨93 :: r, l, e⟩ = Res.ok () ⟨r, l, e ++ [Diag.EmptySceneError]⟩ := by
  rw [read_objects, bind_ok _ (fgetc_cons 93 r l e)]
  simp only [if_true]
  rfl

/-- Claim C12, as amended: on an empty array `ws '[' ws ']'`, `read_scene`
prints the `EmptySceneError` message, leaves what follows `]` unread and
returns normally; the process then ends with exit code 0. -/
theorem read_scene_empty_array (w0 w1 rest : List Nat) (fuel : Nat) (h0 : is_ws w0 = true)
    (h1 : is_ws w1 = true) (hf : 1 ≤ fuel) :
    read_scene fuel (some (w0 ++ 91 :: (w1 ++ 93 :: rest)))
      = Res.ok () ⟨rest, 1 + newlines w0 + newlines w1, [Diag.EmptySceneError]⟩ ∧
    exit_of (read_scene fuel (some (w0 ++ 91 :: (w1 ++ 93 :: rest))))
      = Exit.code 0 [] [Diag.EmptySceneError] := by
  have h : read_scene fuel (some (w0 ++ 91 :: (w1 ++ 93 :: rest)))
      = Res.ok () ⟨rest, 1 + newlines w0 + newlines w1, [Diag.EmptySceneError]⟩ := by
    obtain ⟨f, rfl⟩ : ∃ f, fuel = f + 1 := ⟨fuel - 1, by omega⟩
    unfold read_scene
    simp only
    rw [bind_ok _ (skip_ws_solid w0 h0 _ (solid_cons _ (by decide)) 1 []),
      bind_ok _ (expect_c_ok 91 (by decide) _ _ []),
      bind_ok _ (skip_ws_solid w1 h1 _ (solid_cons _ (by decide)) _ []),
      read_objects_bracket]
    rfl
  exact ⟨h, by rw [h]; rfl⟩

theorem read_scene_empty_array_witness :
    read_scene 1 (some ([32] ++ 91 :: ([10, 32] ++ 93 :: [10])))
      = Res.ok () ⟨[10], 1 + newlines [32] + newlines [10, 32], [Diag.EmptySceneError]⟩ ∧
    exit_of (read_scene 1 (some ([32] ++ 91 :: ([10, 32] ++ 93 :: [10]))))
      = Exit.code 0 [] [Diag.EmptySceneError] :=
  read_scene_empty_array [32] [10, 32] [10] 1 (by decide) (by decide) (Nat.le_refl 1)

theorem main_checked (fuel : Nat) (open_file : List Nat → Option (List Nat))
    (argv : List (List Nat)) (h5 : argv.length = 5)
    (hw : digit_test (argv.getD 1 []) = some false)
    (hh : digit_test (argv.getD 2 []) = some false)
    (hi : strstr (argv.getD 3 []) (bytes ".json") = true)
    (ho : strstr (argv.getD 4 []) (bytes ".json") = true) :
    main fuel open_file argv = exit_of (read_scene fuel (open_file (argv.getD 3 []))) := by
  unfold main
  rw [if_neg (by simp [h5])]
  simp only [hw, hh]
  rw [if_neg (by rw [hi]; decide), if_neg (by rw [ho]; decide)]

/-- Claim C12 fails as stated: on `[]` `read_scene` prints the message and
returns, it does not call `exit`, and the process run on a file holding `[]`
ends with exit code 0. -/
theorem read_scene_empty_array_counterexample :
    read_scene 1 (some (bytes "[]")) = Res.ok () ⟨[], 1, [Diag.EmptySceneError]⟩ ∧
    (∀ fuel d s, read_scene fuel (some (bytes "[]")) ≠ Res.exit d s) ∧
    (∀ fuel, 1 ≤ fuel →
      main fuel (one_file (bytes "in.json") (bytes "[]"))
        [bytes "raycaster", bytes "1", bytes "1", bytes "in.json", bytes "out.json"]
      = Exit.code 0 [] [Diag.EmptySceneError]) := by
  have h1 : read_scene 1 (some (bytes "[]")) = Res.ok () ⟨[], 1, [Diag.EmptySceneError]⟩ := by
    decide!
  have hall : ∀ fuel, 1 ≤ fuel →
      read_scene fuel (some (bytes "[]")) = Res.ok () ⟨[], 1, [Diag.EmptySceneError]⟩ :=
    fun fuel hf => read_scene_stable h1 (by simp) fuel hf
  refine ⟨h1, ?_, ?_⟩
  · intro fuel d s hex
    have := read_scene_stable hex (by simp) (fuel + 1) (by omega)
    rw [hall (fuel + 1) (by omega)] at this
    cases this
  · intro fuel hf
    have hm : main fuel (one_file (bytes "in.json") (bytes "[]"))
        [bytes "raycaster", bytes "1", bytes "1", bytes "in.json", bytes "out.json"]
        = exit_of (read_scene fuel (some (bytes "[]"))) := by
      exact main_checked fuel _ _ (by decide) (by decide!) (by decide!) (by decide!)
        (by decide!)
    rw [hm, hall fuel hf]
    rfl

/-- Claim C13 against the code: in `[x`, newline, `{"kind":1}]` the key
`kind` stands on line 2, one newline having been consumed before it, and
`read_scene` reports `MissingTypeKey` with line 1: the newline was read with
`fgetc` at the head of the object loop and not counted. -/
theorem read_scene_line_not_counted :
    bytes "[x\n\x7b\"kind\":1\x7d]" = bytes "[x\n\x7b\"kind\"" ++ bytes ":1\x7d]" ∧
    newlines (bytes "[x\n\x7b\"kind\"") = 1 ∧
    (∀ fuel, 3 ≤ fuel →
      read_scene fuel (some (bytes "[x\n\x7b\"kind\":1\x7d]"))
        = Res.exit (Diag.MissingTypeKey 1) ⟨bytes ":1\x7d]", 1, []⟩) := by
  refine ⟨by decide!, by decide!, fun fuel hf => ?_⟩
  have h3 : read_scene 3 (some (bytes "[x\n\x7b\"kind\":1\x7d]"))
      = Res.exit (Diag.MissingTypeKey 1) ⟨bytes ":1\x7d]", 1, []⟩ := by decide!
  exact read_scene_stable h3 (by simp) fuel hf

/-- Claim C17, as amended: `read_scene` reports `EmptySceneError` whenever
`]` is the character read at the head of the object loop, whether or not
objects have been parsed: after any number of well-formed objects each
followed by a comma it prints the message and returns; a document whose
last object is followed by `ws ']'` ends without it. -/
theorem read_scene_bracket_after_comma (w0 w1 : List Nat) (init : List Item) (d : Doc)
    (rest : List Nat) (h0 : is_ws w0 = true) (h1 : is_ws w1 = true)
    (hinit : ∀ it ∈ init, it.wf = true) (hd : d.wf = true) :
    ∃ N, ∀ fuel, N ≤ fuel →
      read_scene fuel (some (scene_head w0 w1 init ++ 93 :: rest))
        = Res.ok () ⟨rest, 1 + newlines (scene_head w0 w1 init), [Diag.EmptySceneError]⟩ ∧
      read_scene fuel (some (d.text ++ rest)) = Res.ok () ⟨rest, 1 + newlines d.text, []⟩ := by
  refine ⟨init.length + props_total init + 1 + d.rounds, fun fuel hf => ⟨?_, ?_⟩⟩
  · rw [read_scene_head w0 w1 init h0 h1 hinit _ (solid_cons _ (by decide)) fuel (by omega)]
    obtain ⟨f, hfeq⟩ : ∃ f, fuel - init.length = f + 1 := ⟨fuel - init.length - 1, by omega⟩
    rw [hfeq, read_objects_bracket]
    rfl
  · exact read_scene_doc d hd rest fuel (by omega)

theorem read_scene_bracket_after_comma_witness :
    ∃ N, ∀ fuel, N ≤ fuel →
      read_scene fuel (some (scene_head [] [] [⟨camera_obj, [], [10]⟩] ++ 93 :: []))
        = Res.ok () ⟨[], 1 + newlines (scene_head [] [] [⟨camera_obj, [], [10]⟩]),
            [Diag.EmptySceneError]⟩ ∧
      read_scene fuel (some ((doc_lit [] camera_obj).text ++ []))
        = Res.ok () ⟨[], 1 + newlines (doc_lit [] camera_obj).text, []⟩ :=
  read_scene_bracket_after_comma [] [] [⟨camera_obj, [], [10]⟩] (doc_lit [] camera_obj) []
    (by decide) (by decide) (by decide!) (by decide!)

/-- Claim C17 fails as stated: on `[{"type":"camera"},]` one object has been
parsed completely, and `read_scene` ends by printing the `EmptySceneError`
message. -/
theorem read_scene_trailing_comma_counterexample :
    read_scene 2 (some (bytes "[\x7b\"type\":\"camera\"\x7d,]"))
      = Res.ok () ⟨[], 1, [Diag.EmptySceneError]⟩ ∧
    (∀ fuel, 2 ≤ fuel →
      read_scene fuel (some (bytes "[\x7b\"type\":\"camera\"\x7d,]"))
        = Res.ok () ⟨[], 1, [Diag.EmptySceneError]⟩) := by
  have h2 : read_scene 2 (some (bytes "[\x7b\"type\":\"camera\"\x7d,]"))
      = Res.ok () ⟨[], 1, [Diag.EmptySceneError]⟩ := by decide!
  exact ⟨h2, fun fuel hf => read_scene_stable h2 (by simp) fuel hf⟩

/-- Claim C20 against the code: with the four arguments `50 50 scene.json
out.json`, all of the required form, `main` prints the width message and
exits with code 1 without calling `read_scene`: lines 299 and 305 apply
`isdigit` to the value `atoi` returned, which holds exactly for the values
48 to 57. A wrong number of arguments does exit with code 1; with `100` and
`200`, values of a character that are no digit codes, `main` goes on to
`read_scene`; with `640` the call of `isdigit` is outside its domain. -/
theorem main_rejects_width_fifty :
    (∀ fuel open_file, main fuel open_file
        [bytes "raycaster", bytes "50", bytes "50", bytes "scene.json", bytes "out.json"]
      = Exit.code 1 [Usage.Width] []) ∧
    (∀ fuel open_file argv, argv.length ≠ 5 →
      main fuel open_file argv = Exit.code 1 [Usage.ArgCount] []) ∧
    (∀ fuel open_file, main fuel open_file
        [bytes "raycaster", bytes "100", bytes "200", bytes "scene.json", bytes "out.json"]
      = exit_of (read_scene fuel (open_file (bytes "scene.json")))) ∧
    (∀ fuel open_file, main fuel open_file
        [bytes "raycaster", bytes "640", bytes "480", bytes "scene.json", bytes "out.json"]
      = Exit.undefined) := by
  refine ⟨fun fuel open_file => ?_, fun fuel open_file argv h => ?_, fun fuel open_file => ?_,
    fun fuel open_file => ?_⟩
  · unfold main
    rw [if_neg (by decide)]
    have h : digit_test ([bytes "raycaster", bytes "50", bytes "50", bytes "scene.json",
        bytes "out.json"].getD 1 []) = some true := by decide!
    simp only [h]
  · unfold main
    rw [if_pos h]
  · exact main_checked fuel open_file _ (by decide) (by decide!) (by decide!) (by decide!)
      (by decide!)
  · unfold main
    rw [if_neg (by decide)]
    have h : digit_test ([bytes "raycaster", bytes "640", bytes "480", bytes "scene.json",
        bytes "out.json"].getD 1 []) = none := by decide!
    simp only [h]

/-! ## Inside an object -/

theorem scan_float_end (n : NumLit) (hn : n.wf = true) :
    scan_float n.text = (some n.text, []) := by
  obtain ⟨sg, ip, pt, fp, mk, es, ed⟩ := n
  simp only [NumLit.wf, Bool.and_eq_true, Bool.or_eq_true, beq_iff_eq, bne_iff_ne, ne_eq] at hn
  obtain ⟨⟨⟨⟨⟨⟨hsg, hip⟩, hpt⟩, hfp⟩, hpf⟩, hne⟩, hex⟩ := hn
  have hpf2 : pt ≠ [] ∨ fp = [] := hpf
  rcases hex with ⟨⟨rfl, rfl⟩, rfl⟩ | ⟨⟨⟨hmk, hes⟩, hed⟩, hed0⟩
  · have := scan_float_mantissa sg ip pt fp [] hsg hip hpt hfp hpf2 hne (by simp)
    simp only [NumLit.text, List.append_nil, List.nil_append, List.append_assoc] at this ⊢
    rw [this]
    simp [scan_exponent]
  · have hmk2 : ∃ m, mk = [m] ∧ (m = 101 ∨ m = 69) := by
      rcases hmk with h | h
      · exact ⟨101, h, Or.inl rfl⟩
      · exact ⟨69, h, Or.inr rfl⟩
    obtain ⟨m, rfl, hm⟩ := hmk2
    have hm1 : isdigit m = false ∧ m ≠ 46 := by
      rcases hm with rfl | rfl <;> exact ⟨by decide, by decide⟩
    have := scan_float_mantissa sg ip pt fp (m :: (es ++ ed)) hsg hip hpt hfp
      hpf2 hne (by intro c hc; simp at hc; subst hc; exact hm1)
    simp only [NumLit.text, List.append_nil, List.nil_append, List.append_assoc,
      List.cons_append, List.singleton_append] at this ⊢
    rw [this]
    have h5 := take_sign_run es ed hes (by
      intro _ c hc
      have := digits_head ed hed c hc
      simp only [isdigit, Bool.and_eq_true, decide_eq_true_eq] at this
      omega)
    have h6 := takeWhile_digits ed [] hed (by simp)
    simp only [List.append_nil] at h6
    simp only [scan_exponent, hm, if_true, h5, h6.1, h6.2, hed0, if_false, List.append_assoc,
      List.cons_append, List.singleton_append]

theorem next_number_follow (n : NumLit) (hn : n.wf = true) (x : List Nat)
    (hx : ends_number x = true) (l : Nat) (e : List Diag) :
    next_number ⟨n.text ++ x, l, e⟩ = Res.ok (Value.float_stored n.text) ⟨x, l, e⟩ := by
  cases x with
  | nil => simp only [next_number, List.append_nil, scan_float_end n hn]
  | cons d rest => exact next_number_lit n hn d hx rest l e

theorem props_text_head (ps : List Property) (hps : ∀ p ∈ ps, p.wf = true) (hne : ps ≠ [])
    (x : List Nat) : ends_number (props_text ps ++ x) = true := by
  cases ps with
  | nil => exact absurd rfl hne
  | cons p ps =>
    have h1 := (property_wf_parts (hps p (by simp))).1
    simp only [props_text, Property.text, List.append_assoc, List.cons_append]
    cases hw : p.w1 with
    | nil => rfl
    | cons a w =>
      rw [hw] at h1
      exact is_ws_delim h1 a (by simp)

/-- Reading one well-formed value, whatever follows it, as long as a number
is not followed by a character that continues it. -/
theorem read_value_follow (p : Property) (hp : p.wf = true) (x : List Nat)
    (hx : ends_in_number [p] = true → ends_number x = true) (l : Nat) (e : List Diag) :
    read_value p.key ⟨p.value.text ++ x, l, e⟩
      = Res.ok () ⟨x, l + newlines p.value.text, e⟩ := by
  obtain ⟨w1, w2, key, w3, w4, value⟩ := p
  simp only [Property.wf, Bool.and_eq_true] at hp
  cases value with
  | number n =>
    simp only [Bool.and_eq_true, decide_eq_true_eq] at hp
    simp only [PropValue.text]
    rw [read_value_scalar key hp.2.2, bind_ok _ (next_number_follow n hp.2.1 x (hx rfl) l e),
      pure_apply, NumLit.no_newline n hp.2.1]
    rfl
  | vector v =>
    simp only [Bool.and_eq_true, decide_eq_true_eq] at hp
    simp only [PropValue.text]
    rw [read_value_vector key hp.2.2, bind_ok _ (next_vector_lit v hp.2.1 _ l e), pure_apply]

theorem newlines_props_cons (p : Property) (ps : List Property) :
    newlines (props_text (p :: ps)) = newlines p.text + newlines (props_text ps) := by
  simp only [props_text, newlines_append]

/-- The property loop reads well-formed properties one round each and comes
to the `,`-or-`}` step at what follows them. -/
theorem read_fields_props (ps : List Property) (hps : ∀ p ∈ ps, p.wf = true) (x : List Nat)
    (hx : ends_in_number ps = true → ends_number x = true) (fuel : Nat)
    (hf : ps.length ≤ fuel) (l : Nat) (e : List Diag) :
    (skip_ws >>= fun _ => read_fields fuel) ⟨props_text ps ++ x, l, e⟩
      = (skip_ws >>= fun _ => read_fields (fuel - ps.length))
          ⟨x, l + newlines (props_text ps), e⟩ := by
  induction ps generalizing fuel l with
  | nil => simp [props_text, newlines]
  | cons p ps ih =>
    simp only [List.length_cons] at hf
    obtain ⟨f, rfl⟩ : ∃ f, fuel = f + 1 := ⟨fuel - 1, by omega⟩
    have hp := hps p (by simp)
    have hps2 : ∀ q ∈ ps, q.wf = true := fun q hq => hps q (List.mem_cons_of_mem _ hq)
    obtain ⟨h1, h2, h3, h4⟩ := property_wf_parts hp
    obtain ⟨hk1, hk2⟩ := Property.key_text hp
    have hval : ends_in_number [p] = true → ends_number (props_text ps ++ x) = true := by
      intro hnum
      cases ps with
      | nil => simpa [props_text] using hx hnum
      | cons q qs => exact props_text_head (q :: qs) hps2 (by simp) x
    have hx2 : ends_in_number ps = true → ends_number x = true := by
      intro hnum
      cases ps with
      | nil => simp [ends_in_number] at hnum
      | cons q qs => exact hx (by simpa [ends_in_number] using hnum)
    rw [newlines_props_cons]
    simp only [props_text, Property.text, List.append_assoc, List.cons_append, List.nil_append]
    rw [bind_ok _ (skip_ws_solid p.w1 h1 _ (solid_cons _ (by decide)) l e), read_fields,
      bind_ok _ (next_c_cons 44 _ _ e)]
    simp only [show ¬ ((44 : Nat) = 125) by decide, if_false, if_true]
    rw [bind_ok _ (skip_ws_solid p.w2 h2 _ (solid_quoted _ _) _ e),
      bind_ok _ (next_string_quoted p.key hk1 hk2 _ _ e),
      bind_ok _ (skip_ws_solid p.w3 h3 _ (solid_cons _ (by decide)) _ e),
      bind_ok _ (expect_c_ok 58 (by decide) _ _ e),
      bind_ok _ (skip_ws_solid p.w4 h4 _ (solid_value p hp _) _ e),
      bind_ok _ (read_value_follow p hp _ hval _ e),
      ih hps2 hx2 f (by omega)]
    simp only [Property.text, newlines_append, newlines_cons, List.length_cons,
      Nat.add_sub_add_right, newlines_quoted p.key hk1]
    simp only [show ¬ ((44 : Nat) = 10) by decide, show ¬ ((58 : Nat) = 10) by decide, if_false]
    refine congrArg _ ?_
    simp only [State.mk.injEq, true_and, and_true]
    omega

theorem bind_left_eq {α β : Type} {x y : M α} {s s1 : State} (k : α → M β)
    (h : x s = y s1) : (x >>= k) s = (y >>= k) s1 := by
  rw [bind_apply, bind_apply, h]

theorem skip_ws_loop_eof (w : List Nat) (hw : is_ws w = true) (c0 : Nat)
    (hc0 : isspace c0 = true) (l : Nat) (e : List Diag) :
    skip_ws_loop c0 w l e
      = Res.exit (Diag.UnexpectedEndOfInput (l + newlines w)) ⟨[], l + newlines w, e⟩ := by
  induction w generalizing c0 l with
  | nil => simp [skip_ws_loop, hc0, newlines]
  | cons a w ih =>
    obtain ⟨ha, hw2⟩ := is_ws_cons hw
    rw [skip_ws_loop, if_pos hc0, ih hw2 a ha, newlines_cons]
    simp only [Nat.add_assoc]

theorem skip_ws_eof (w : List Nat) (hw : is_ws w = true) (l : Nat) (e : List Diag) :
    skip_ws ⟨w, l, e⟩
      = Res.exit (Diag.UnexpectedEndOfInput (l + newlines w)) ⟨[], l + newlines w, e⟩ := by
  cases w with
  | nil => simp [skip_ws, next_c, newlines]
  | cons a w =>
    obtain ⟨ha, hw2⟩ := is_ws_cons hw
    simp only [skip_ws, next_c]
    rw [skip_ws_loop_eof w hw2 a ha, newlines_cons]
    simp only [Nat.add_assoc]

theorem newlines_obj_head (a b c t : List Nat) (ht : t ∈ type_names) :
    newlines (obj_head a b c t) = newlines a + newlines b + newlines c := by
  simp only [obj_head, newlines_cons, newlines_append,
    newlines_quoted _ (type_name_text ht).1, newlines_quoted (bytes "type") (by decide)]
  simp
  omega

/-- From the start of the file into an object: past well-formed objects, the
opening of the object, its type and well-formed properties, `read_scene` is
at the `,`-or-`}` step of the object, nothing printed. -/
theorem read_scene_in_object (w0 w1 : List Nat) (init : List Item) (a b c t : List Nat)
    (ps : List Property) (x : List Nat) (h0 : is_ws w0 = true) (h1 : is_ws w1 = true)
    (hinit : ∀ it ∈ init, it.wf = true) (ha : is_ws a = true) (hb : is_ws b = true)
    (hc : is_ws c = true) (ht : t ∈ type_names) (hps : ∀ p ∈ ps, p.wf = true)
    (hx : ends_in_number ps = true → ends_number x = true) (fuel : Nat)
    (hf : init.length + props_total init + ps.length + 1 ≤ fuel) :
    read_scene fuel (some (scene_head w0 w1 init ++ (obj_head a b c t ++ (props_text ps ++ x))))
      = ((skip_ws >>= fun _ => read_fields (fuel - init.length - 1 - ps.length)) >>=
          fun _ => object_end (fuel - init.length - 1))
        ⟨x, 1 + newlines (scene_head w0 w1 init) + newlines (obj_head a b c t)
          + newlines (props_text ps), []⟩ := by
  have hsolid : solid (obj_head a b c t ++ (props_text ps ++ x)) := ⟨123, _, rfl, by decide⟩
  rw [read_scene_head w0 w1 init h0 h1 hinit _ hsolid fuel (by omega)]
  obtain ⟨n, hn⟩ : ∃ n, fuel - init.length = n + 1 := ⟨fuel - init.length - 1, by omega⟩
  rw [hn, Nat.add_sub_cancel, newlines_obj_head a b c t ht]
  simp only [obj_head, List.append_assoc, List.cons_append]
  rw [read_objects_type a b c t ha hb hc ht]
  unfold object_fields
  rw [bind_bind]
  rw [bind_left_eq _ (read_fields_props ps hps x hx n (by omega) _ [])]
  simp only [Nat.add_assoc]

theorem ends_number_ws (w x : List Nat) (hw : is_ws w = true) (hx : w = [] → ends_number x = true) :
    ends_number (w ++ x) = true := by
  cases w with
  | nil => exact hx rfl
  | cons a w => exact is_ws_delim hw a (by simp)

theorem read_fields_unexpected (fuel x : Nat) (hx : isspace x = false) (h1 : x ≠ 44)
    (h2 : x ≠ 125) (w rest : List Nat) (hw : is_ws w = true) (l : Nat) (e : List Diag) :
    (skip_ws >>= fun _ => read_fields (fuel + 1)) ⟨w ++ x :: rest, l, e⟩
      = Res.exit (Diag.UnexpectedValue (l + newlines w)) ⟨rest, l + newlines w, e⟩ := by
  rw [bind_ok _ (skip_ws_run w hw x hx rest l e), read_fields,
    bind_ok _ (next_c_cons x rest _ e)]
  simp only [h1, h2, if_false, isspace_ne_newline hx, Nat.add_zero]
  rfl

/-- Claim C14 against the code: in `[{"type":"camera","width":1e}]` the value
`1` is followed by `e`, neither `,` nor `}`, and `read_scene` returns with
nothing printed: `fscanf` takes `1e` for the beginning of a number and
assigns nothing, `next_number` does not look at its result, and `}` closes
the object. In `[x`, a newline, `{"type":"camera" ]` the exit is
`Unexpected value on line 1` although the `]` stands on line 2. The rest of
the claim holds: `[{"type": "camera" ]` ends with `Unexpected value on
line 1`; and past well-formed objects, after the type value or after
well-formed properties, and after optional white space, a character that is
neither `,` nor `}` ends the process with `Unexpected value` at the line of
that character, and the end of the input there with `UnexpectedEndOfInput`,
when the character, if it stands directly behind a number, is none that goes
on with a number (a digit, `.`, `e`, `E`, or `x`, `X`, 120 and 88). -/
theorem read_scene_unfinished_number_closes_object :
    (∀ fuel, 3 ≤ fuel →
      read_scene fuel (some (bytes "[\x7b\"type\":\"camera\",\"width\":1e\x7d]"))
        = Res.ok () ⟨[], 1, []⟩) ∧
    (∀ fuel, 4 ≤ fuel →
      read_scene fuel (some (bytes "[x\n\x7b\"type\":\"camera\" ]"))
        = Res.exit (Diag.UnexpectedValue 1) ⟨[], 1, []⟩) ∧
    (∀ fuel, 2 ≤ fuel →
      read_scene fuel (some (bytes "[\x7b\"type\": \"camera\" ]"))
        = Res.exit (Diag.UnexpectedValue 1) ⟨[], 1, []⟩) ∧
    (∀ (w0 w1 : List Nat) (init : List Item) (a b c t : List Nat) (ps : List Property)
        (w rest : List Nat) (x : Nat),
      is_ws w0 = true → is_ws w1 = true → (∀ it ∈ init, it.wf = true) →
      is_ws a = true → is_ws b = true → is_ws c = true → t ∈ type_names →
      (∀ p ∈ ps, p.wf = true) → is_ws w = true → isspace x = false → x ≠ 44 → x ≠ 125 →
      (ends_in_number ps = true → w = [] → is_delim x = true ∧ x ≠ 120 ∧ x ≠ 88) →
      ∃ N, ∀ fuel, N ≤ fuel →
        read_scene fuel (some
            (scene_head w0 w1 init ++ (obj_head a b c t ++ (props_text ps ++ (w ++ x :: rest)))))
          = Res.exit
              (Diag.UnexpectedValue (1 + newlines (scene_head w0 w1 init)
                + newlines (obj_head a b c t) + newlines (props_text ps) + newlines w))
              ⟨rest, 1 + newlines (scene_head w0 w1 init) + newlines (obj_head a b c t)
                + newlines (props_text ps) + newlines w, []⟩ ∧
        read_scene fuel (some
            (scene_head w0 w1 init ++ (obj_head a b c t ++ (props_text ps ++ w))))
          = Res.exit
              (Diag.UnexpectedEndOfInput (1 + newlines (scene_head w0 w1 init)
                + newlines (obj_head a b c t) + newlines (props_text ps) + newlines w))
              ⟨[], 1 + newlines (scene_head w0 w1 init) + newlines (obj_head a b c t)
                + newlines (props_text ps) + newlines w, []⟩) := by
  refine ⟨fun fuel hf => ?_, fun fuel hf => ?_, fun fuel hf => ?_, ?_⟩
  · have h : read_scene 3 (some (bytes "[\x7b\"type\":\"camera\",\"width\":1e\x7d]"))
        = Res.ok () ⟨[], 1, []⟩ := by decide!
    exact read_scene_stable h (by simp) fuel hf
  · have h : read_scene 4 (some (bytes "[x\n\x7b\"type\":\"camera\" ]"))
        = Res.exit (Diag.UnexpectedValue 1) ⟨[], 1, []⟩ := by decide!
    exact read_scene_stable h (by simp) fuel hf
  · have h : read_scene 2 (some (bytes "[\x7b\"type\": \"camera\" ]"))
        = Res.exit (Diag.UnexpectedValue 1) ⟨[], 1, []⟩ := by decide!
    exact read_scene_stable h (by simp) fuel hf
  · intro w0 w1 init a b c t ps w rest x h0 h1 hinit ha hb hc ht hps hw hx hx1 hx2 hnum
    refine ⟨init.length + props_total init + ps.length + 2, fun fuel hf => ⟨?_, ?_⟩⟩
    · rw [read_scene_in_object w0 w1 init a b c t ps _ h0 h1 hinit ha hb hc ht hps
        (fun hn => ends_number_ws w (x :: rest) hw (fun hw0 => (hnum hn hw0).1)) fuel (by omega)]
      obtain ⟨k, hk⟩ : ∃ k, fuel - init.length - 1 - ps.length = k + 1 :=
        ⟨fuel - init.length - 1 - ps.length - 1, by omega⟩
      rw [hk, bind_exit _ (read_fields_unexpected k x hx hx1 hx2 w rest hw _ [])]
    · rw [read_scene_in_object w0 w1 init a b c t ps _ h0 h1 hinit ha hb hc ht hps
        (fun _ => by simpa using ends_number_ws w [] hw (fun _ => rfl)) fuel (by omega)]
      rw [bind_exit _ (bind_exit _ (skip_ws_eof w hw _ []))]

theorem read_value_unknown (key : List Nat) (hk : key ∉ scalar_keys ++ vector_keys)
    (s : State) :
    read_value key s
      = Res.ok () { s with stderr := s.stderr ++ [Diag.UnknownProperty key s.line] } := by
  simp only [scalar_keys, vector_keys, List.cons_append, List.nil_append, List.mem_cons,
    List.mem_singleton, List.not_mem_nil, or_false, not_or] at hk
  obtain ⟨k1, k2, k3, k4, k5, k6⟩ := hk
  unfold read_value
  rw [if_neg (by simp [k1, k2, k3]), if_neg (by simp [k4, k5, k6])]
  rfl

/-- One round of the property loop on a property with an unknown key: the
message is printed and the loop goes on at the first character after the
colon and white space. -/
theorem read_fields_unknown (fuel : Nat) (w1 w2 key w3 w4 : List Nat) (x : Nat)
    (rest : List Nat) (h1 : is_ws w1 = true) (h2 : is_ws w2 = true) (h3 : is_ws w3 = true)
    (h4 : is_ws w4 = true) (hk1 : is_text key = true) (hk2 : key.length ≤ 128)
    (hk : key ∉ scalar_keys ++ vector_keys) (hx : isspace x = false) (l : Nat) (e : List Diag) :
    (skip_ws >>= fun _ => read_fields (fuel + 1))
        ⟨w1 ++ 44 :: (w2 ++ (quoted key ++ (w3 ++ 58 :: (w4 ++ x :: rest)))), l, e⟩
      = read_fields fuel ⟨x :: rest, l + newlines w1 + newlines w2 + newlines w3 + newlines w4,
          e ++ [Diag.UnknownProperty key
            (l + newlines w1 + newlines w2 + newlines w3 + newlines w4)]⟩ := by
  rw [bind_ok _ (skip_ws_solid w1 h1 _ (solid_cons _ (by decide)) l e), read_fields,
    bind_ok _ (next_c_cons 44 _ _ e)]
  simp only [show ¬ ((44 : Nat) = 125) by decide, if_false, if_true]
  rw [bind_ok _ (skip_ws_solid w2 h2 _ (solid_quoted _ _) _ e),
    bind_ok _ (next_string_run key hk1 hk2 _ _ e),
    bind_ok _ (skip_ws_solid w3 h3 _ (solid_cons _ (by decide)) _ e),
    bind_ok _ (expect_c_ok 58 (by decide) _ _ e),
    bind_ok _ (skip_ws_solid w4 h4 _ (solid_cons _ hx) _ e),
    bind_ok _ (read_value_unknown key hk _)]
  simp only
  have := skip_ws_run [] (by decide) x hx rest
    (l + newlines w1 + (if (44 : Nat) = 10 then 1 else 0) + newlines w2 + newlines w3
      + newlines w4)
    (e ++ [Diag.UnknownProperty key (l + newlines w1 + (if (44 : Nat) = 10 then 1 else 0)
      + newlines w2 + newlines w3 + newlines w4)])
  simp only [List.nil_append] at this
  rw [bind_ok _ this]
  simp [newlines]

theorem read_fields_die (fuel x : Nat) (hx : isspace x = false) (h1 : x ≠ 44) (h2 : x ≠ 125)
    (rest : List Nat) (l : Nat) (e : List Diag) :
    read_fields (fuel + 1) ⟨x :: rest, l, e⟩ = Res.exit (Diag.UnexpectedValue l) ⟨rest, l, e⟩ := by
  rw [read_fields, bind_ok _ (next_c_cons x rest _ e)]
  simp only [h1, h2, if_false, isspace_ne_newline hx, Nat.add_zero]
  rfl

/-- Claim C16: for a property whose key is none of the six, `read_scene`
prints `UnknownProperty` with the key and the current line, reads no
character of the value and goes on: the `,`-or-`}` step of the object loop
runs next, at the first character after the colon and white space; when
that character is neither `,` nor `}` the process ends there with
`Unexpected value`. The property may follow well-formed objects and
well-formed properties of its object. -/
theorem read_scene_unknown_property (w0 w1 : List Nat) (init : List Item)
    (a b c t : List Nat) (ps : List Property) (w w2 key w3 w4 rest : List Nat) (x : Nat)
    (h0 : is_ws w0 = true) (h1 : is_ws w1 = true) (hinit : ∀ it ∈ init, it.wf = true)
    (ha : is_ws a = true) (hb : is_ws b = true) (hc : is_ws c = true) (ht : t ∈ type_names)
    (hps : ∀ p ∈ ps, p.wf = true) (hw : is_ws w = true) (hw2 : is_ws w2 = true)
    (hw3 : is_ws w3 = true) (hw4 : is_ws w4 = true) (hk1 : is_text key = true)
    (hk2 : key.length ≤ 128) (hk : key ∉ scalar_keys ++ vector_keys)
    (hx : isspace x = false) :
    ∃ N, ∀ fuel, N ≤ fuel →
      read_scene fuel (some (scene_head w0 w1 init ++ (obj_head a b c t ++ (props_text ps ++
          (w ++ 44 :: (w2 ++ (quoted key ++ (w3 ++ 58 :: (w4 ++ x :: rest)))))))))
        = (read_fields (fuel - init.length - 1 - ps.length - 1) >>=
            fun _ => object_end (fuel - init.length - 1))
          ⟨x :: rest,
            1 + newlines (scene_head w0 w1 init) + newlines (obj_head a b c t)
              + newlines (props_text ps) + newlines w + newlines w2 + newlines w3 + newlines w4,
            [Diag.UnknownProperty key
              (1 + newlines (scene_head w0 w1 init) + newlines (obj_head a b c t)
                + newlines (props_text ps) + newlines w + newlines w2 + newlines w3
                + newlines w4)]⟩ ∧
      (x ≠ 44 → x ≠ 125 →
        read_scene fuel (some (scene_head w0 w1 init ++ (obj_head a b c t ++ (props_text ps ++
            (w ++ 44 :: (w2 ++ (quoted key ++ (w3 ++ 58 :: (w4 ++ x :: rest)))))))))
          = Res.exit
              (Diag.UnexpectedValue
                (1 + newlines (scene_head w0 w1 init) + newlines (obj_head a b c t)
                  + newlines (props_text ps) + newlines w + newlines w2 + newlines w3
                  + newlines w4))
              ⟨rest,
                1 + newlines (scene_head w0 w1 init) + newlines (obj_head a b c t)
                  + newlines (props_text ps) + newlines w + newlines w2 + newlines w3
                  + newlines w4,
                [Diag.UnknownProperty key
                  (1 + newlines (scene_head w0 w1 init) + newlines (obj_head a b c t)
                    + newlines (props_text ps) + newlines w + newlines w2 + newlines w3
                    + newlines w4)]⟩) := by
  refine ⟨init.length + props_total init + ps.length + 3, fun fuel hf => ?_⟩
  have hmain : read_scene fuel (some (scene_head w0 w1 init ++ (obj_head a b c t ++
        (props_text ps ++ (w ++ 44 :: (w2 ++ (quoted key ++ (w3 ++ 58 :: (w4 ++ x :: rest)))))))))
      = (read_fields (fuel - init.length - 1 - ps.length - 1) >>=
          fun _ => object_end (fuel - init.length - 1))
        ⟨x :: rest,
          1 + newlines (scene_head w0 w1 init) + newlines (obj_head a b c t)
            + newlines (props_text ps) + newlines w + newlines w2 + newlines w3 + newlines w4,
          [Diag.UnknownProperty key
            (1 + newlines (scene_head w0 w1 init) + newlines (obj_head a b c t)
              + newlines (props_text ps) + newlines w + newlines w2 + newlines w3
              + newlines w4)]⟩ := by
    rw [read_scene_in_object w0 w1 init a b c t ps _ h0 h1 hinit ha hb hc ht hps
      (fun _ => ends_number_ws w (44 :: (w2 ++ (quoted key ++ (w3 ++ 58 :: (w4 ++ x :: rest))))) hw
        (fun _ => rfl)) fuel (by omega)]
    obtain ⟨k, hk0⟩ : ∃ k, fuel - init.length - 1 - ps.length = k + 1 :=
      ⟨fuel - init.length - 1 - ps.length - 1, by omega⟩
    rw [hk0, Nat.add_sub_cancel,
      bind_left_eq _ (read_fields_unknown k w w2 key w3 w4 x rest hw hw2 hw3 hw4 hk1 hk2 hk hx
        _ [])]
    rfl
  refine ⟨hmain, fun hx1 hx2 => ?_⟩
  rw [hmain]
  obtain ⟨k, hk0⟩ : ∃ k, fuel - init.length - 1 - ps.length - 1 = k + 1 :=
    ⟨fuel - init.length - 1 - ps.length - 1 - 1, by omega⟩
  rw [hk0, bind_exit _ (read_fields_die k x hx hx1 hx2 rest _ _)]

theorem read_scene_unknown_property_witness :
    ∃ N, ∀ fuel, N ≤ fuel →
      read_scene fuel (some (scene_head [] [] [] ++ (obj_head [] [] [] (bytes "camera") ++
          (props_text [] ++
          ([] ++ 44 :: ([] ++ (quoted (bytes "depth") ++ ([] ++ 58 :: ([10] ++ 53 ::
            bytes "\x7d]")))))))))
        = (read_fields (fuel - ([] : List Item).length - 1 - ([] : List Property).length - 1)
            >>= fun _ => object_end (fuel - ([] : List Item).length - 1))
          ⟨53 :: bytes "\x7d]",
            1 + newlines (scene_head [] [] []) + newlines (obj_head [] [] [] (bytes "camera"))
              + newlines (props_text []) + newlines [] + newlines [] + newlines []
              + newlines [10],
            [Diag.UnknownProperty (bytes "depth")
              (1 + newlines (scene_head [] [] [])
                + newlines (obj_head [] [] [] (bytes "camera"))
                + newlines (props_text []) + newlines [] + newlines [] + newlines []
                + newlines [10])]⟩ ∧
      (53 ≠ 44 → 53 ≠ 125 →
        read_scene fuel (some (scene_head [] [] [] ++ (obj_head [] [] [] (bytes "camera") ++
            (props_text [] ++
            ([] ++ 44 :: ([] ++ (quoted (bytes "depth") ++ ([] ++ 58 :: ([10] ++ 53 ::
              bytes "\x7d]")))))))))
          = Res.exit
              (Diag.UnexpectedValue
                (1 + newlines (scene_head [] [] [])
                  + newlines (obj_head [] [] [] (bytes "camera"))
                  + newlines (props_text []) + newlines [] + newlines [] + newlines []
                  + newlines [10]))
              ⟨bytes "\x7d]",
                1 + newlines (scene_head [] [] [])
                  + newlines (obj_head [] [] [] (bytes "camera"))
                  + newlines (props_text []) + newlines [] + newlines [] + newlines []
                  + newlines [10],
                [Diag.UnknownProperty (bytes "depth")
                  (1 + newlines (scene_head [] [] [])
                    + newlines (obj_head [] [] [] (bytes "camera"))
                    + newlines (props_text []) + newlines [] + newlines [] + newlines []
                    + newlines [10])]⟩) :=
  read_scene_unknown_property [] [] [] [] [] [] (bytes "camera") [] [] [] (bytes "depth") []
    [10] (bytes "\x7d]") 53 (by decide) (by decide) (by simp) (by decide) (by decide)
    (by decide) (by decide) (by simp) (by decide) (by decide) (by decide) (by decide)
    (by decide) (by decide) (by decide) (by decide)

/-! ## The buffer of `next_string` -/

theorem next_string_loop_writes_le (json : List Nat) (c i : Nat) (hi : i ≤ 128) :
    ∀ j ∈ next_string_loop_writes c i json, j ≤ 128 := by
  induction json generalizing c i with
  | nil =>
    intro j hj
    unfold next_string_loop_writes at hj
    split_ifs at hj <;> simp at hj <;> omega
  | cons c1 rest ih =>
    intro j hj
    unfold next_string_loop_writes at hj
    split_ifs at hj with h1 h2 h3 h4
    · simp at hj; omega
    · simp at hj
    · simp at hj
    · simp at hj
    · rcases List.mem_cons.mp hj with h | h
      · omega
      · exact ih c1 (i + 1) (by omega) j h

theorem is_text_snoc {b : List Nat} {c : Nat} (hb : is_text b = true) (h1 : c ≠ 34)
    (h2 : c ≠ 92) (h3 : ¬ (c < 32 ∨ c > 126)) : is_text (b ++ [c]) = true := by
  simp only [is_text, List.all_append, List.all_cons, List.all_nil, Bool.and_true,
    Bool.and_eq_true, decide_eq_true_eq, bne_iff_ne, ne_eq] at hb ⊢
  exact ⟨hb, ⟨⟨by omega, by omega⟩, h2⟩, h1⟩

theorem next_string_loop_result (json : List Nat) (c i : Nat) (buffer : List Nat) (l : Nat)
    (e : List Diag) (str : List Nat) (s1 : State) (hlen : buffer.length = i) (hi : i ≤ 128)
    (hb : is_text buffer = true)
    (h : next_string_loop c i buffer json l e = Res.ok str s1) :
    i ≤ str.length ∧ str.length ≤ 128 ∧ is_text str = true ∧
    next_string_loop_writes c i json = List.range' i (str.length + 1 - i) := by
  have hquote : ∀ (r : List Nat) (l0 : Nat), Res.ok (strdup buffer) ⟨r, l0, e⟩ = Res.ok str s1 →
      i ≤ str.length ∧ str.length ≤ 128 ∧ is_text str = true ∧
      [i] = List.range' i (str.length + 1 - i) := by
    intro r l0 h0
    simp only [Res.ok.injEq] at h0
    rw [strdup_text buffer hb] at h0
    obtain ⟨rfl, _⟩ := h0
    refine ⟨by omega, by omega, hb, ?_⟩
    rw [hlen, show i + 1 - i = 1 by omega]
    rfl
  induction json generalizing c i buffer l with
  | nil =>
    rw [next_string_loop] at h
    rw [next_string_loop_writes]
    by_cases h1 : c = 34
    · rw [if_pos h1] at h ⊢
      exact hquote [] l h
    rw [if_neg h1] at h
    by_cases h2 : i ≥ 128
    · rw [if_pos h2] at h; cases h
    rw [if_neg h2] at h
    by_cases h3 : c = 92
    · rw [if_pos h3] at h; cases h
    rw [if_neg h3] at h
    by_cases h4 : c < 32 ∨ c > 126
    · rw [if_pos h4] at h; cases h
    rw [if_neg h4] at h
    cases h
  | cons c1 rest ih =>
    rw [next_string_loop] at h
    rw [next_string_loop_writes]
    by_cases h1 : c = 34
    · rw [if_pos h1] at h ⊢
      exact hquote (c1 :: rest) l h
    rw [if_neg h1] at h ⊢
    by_cases h2 : i ≥ 128
    · rw [if_pos h2] at h; cases h
    rw [if_neg h2] at h ⊢
    by_cases h3 : c = 92
    · rw [if_pos h3] at h; cases h
    rw [if_neg h3] at h ⊢
    by_cases h4 : c < 32 ∨ c > 126
    · rw [if_pos h4] at h; cases h
    rw [if_neg h4] at h ⊢
    have hq2 : ∀ (r : List Nat) (l0 : Nat),
        Res.ok (strdup (buffer ++ [c])) ⟨r, l0, e⟩ = Res.ok str s1 →
        i + 1 ≤ str.length ∧ str.length ≤ 128 ∧ is_text str = true ∧
        [i + 1] = List.range' (i + 1) (str.length + 1 - (i + 1)) := by
      intro r l0 h0
      simp only [Res.ok.injEq] at h0
      rw [strdup_text _ (is_text_snoc hb h1 h3 h4)] at h0
      obtain ⟨rfl, _⟩ := h0
      have hl : (buffer ++ [c]).length = i + 1 := by simp [hlen]
      refine ⟨by omega, by omega, is_text_snoc hb h1 h3 h4, ?_⟩
      rw [hl, show i + 1 + 1 - (i + 1) = 1 by omega]
      rfl
    obtain ⟨g1, g2, g3, g4⟩ := ih c1 (i + 1) (buffer ++ [c]) _ (by simp [hlen]) (by omega)
      (is_text_snoc hb h1 h3 h4) h hq2
    refine ⟨by omega, g2, g3, ?_⟩
    rw [g4, show str.length + 1 - i = (str.length + 1 - (i + 1)) + 1 by omega]
    rfl

/-- Claim C18: every write of `next_string` into its 129-element buffer, the
terminator included, is at an index between 0 and 128; and when
`next_string` returns, the string has at most 128 characters, each with a
code from 32 to 126 and none a backslash or a double quote, the writes
having been at the indices 0 to its length. -/
theorem next_string_buffer_safe (s : State) :
    (∀ i ∈ next_string_writes s.json, i ≤ 128) ∧
    (∀ str s1, next_string s = Res.ok str s1 →
      str.length ≤ 128 ∧ (∀ c ∈ str, 32 ≤ c ∧ c ≤ 126 ∧ c ≠ 92 ∧ c ≠ 34) ∧
      next_string_writes s.json = List.range (str.length + 1)) := by
  obtain ⟨json, l, e⟩ := s
  constructor
  · intro i hi
    simp only at hi
    cases json with
    | nil => simp [next_string_writes] at hi
    | cons c r =>
      cases r with
      | nil => simp [next_string_writes] at hi
      | cons c2 rest =>
        simp only [next_string_writes] at hi
        by_cases hq : c = 34
        · rw [if_pos hq] at hi
          exact next_string_loop_writes_le _ _ 0 (by omega) i hi
        · rw [if_neg hq] at hi
          simp at hi
  · intro str s1 h
    unfold next_string at h
    cases json with
    | nil => simp [next_c] at h
    | cons c r =>
      simp only [next_c] at h
      by_cases hq : c = 34
      · rw [if_neg (by simp [hq])] at h
        cases r with
        | nil => simp at h
        | cons c2 rest =>
          simp only at h
          obtain ⟨_, g2, g3, g4⟩ := next_string_loop_result rest c2 0 [] _ e str s1 rfl
            (by omega) (by decide) h
          refine ⟨g2, ?_, ?_⟩
          · intro x hx
            have := (List.all_eq_true.mp g3) x hx
            simp only [Bool.and_eq_true, decide_eq_true_eq, bne_iff_ne, ne_eq] at this
            exact ⟨this.1.1.1, this.1.1.2, this.1.2, this.2⟩
          · simp only [next_string_writes, hq, if_true]
            rw [g4, List.range_eq_range']
            rfl
      · rw [if_pos hq] at h
        cases h

theorem next_string_buffer_safe_witness :
    (∀ i ∈ next_string_writes (bytes "\"type\": 1"), i ≤ 128) ∧
    (∀ str s1, next_string ⟨bytes "\"type\": 1", 1, []⟩ = Res.ok str s1 →
      str.length ≤ 128 ∧ (∀ c ∈ str, 32 ≤ c ∧ c ≤ 126 ∧ c ≠ 92 ∧ c ≠ 34) ∧
      next_string_writes (bytes "\"type\": 1") = List.range (str.length + 1)) :=
  next_string_buffer_safe ⟨bytes "\"type\": 1", 1, []⟩

/-! ## What follows the input read -/

theorem lifts_some {α : Type} {x : M α} (h : Lifts x) : LiftsSome x :=
  fun j l e t v r l1 e1 hx _ => h j l e t v r l1 e1 hx

theorem lifts_pure {α : Type} (v : α) : Lifts (pure v : M α) := by
  intro j l e t w r l1 e1 h
  simp only [pure_apply, Res.ok.injEq, State.mk.injEq] at h ⊢
  obtain ⟨rfl, rfl, rfl, rfl⟩ := h
  exact ⟨rfl, rfl, rfl, rfl⟩

theorem lifts_die {α : Type} (msg : Nat → Diag) : Lifts (die msg : M α) := by
  intro j l e t w r l1 e1 h
  simp [die] at h

theorem lifts_report (msg : Nat → Diag) : Lifts (report msg) := by
  intro j l e t w r l1 e1 h
  simp only [report, Res.ok.injEq, State.mk.injEq] at h ⊢
  obtain ⟨_, rfl, rfl, rfl⟩ := h
  simp

theorem lifts_bind {α β : Type} {x : M α} {f : α → M β} (hx : Lifts x)
    (hf : ∀ v, Lifts (f v)) : Lifts (x >>= f) := by
  intro j l e t w r l1 e1 h
  rw [bind_apply] at h
  cases hxs : x ⟨j, l, e⟩ with
  | ok v s1 =>
    obtain ⟨r0, l0, e0⟩ := s1
    rw [hxs] at h
    rw [bind_ok _ (hx j l e t v r0 l0 e0 hxs)]
    exact hf v r0 l0 e0 t w r l1 e1 h
  | exit d s1 => rw [hxs] at h; cases h
  | unfinished => rw [hxs] at h; cases h

theorem lifts_bind_some {α β : Type} {x : M α} {f : α → M β} (hx : LiftsSome x)
    (hf : ∀ v, Lifts (f v)) (hend : ∀ v, StopsAtEnd (f v)) : Lifts (x >>= f) := by
  intro j l e t w r l1 e1 h
  rw [bind_apply] at h
  cases hxs : x ⟨j, l, e⟩ with
  | ok v s1 =>
    obtain ⟨r0, l0, e0⟩ := s1
    rw [hxs] at h
    have hr0 : r0 ≠ [] := by
      rintro rfl
      exact hend v l0 e0 w _ h
    rw [bind_ok _ (hx j l e t v r0 l0 e0 hxs hr0)]
    exact hf v r0 l0 e0 t w r l1 e1 h
  | exit d s1 => rw [hxs] at h; cases h
  | unfinished => rw [hxs] at h; cases h

theorem lifts_ite {α : Type} (c : Prop) [Decidable c] {x y : M α} (hx : Lifts x)
    (hy : Lifts y) : Lifts (if c then x else y) := by
  by_cases h : c
  · rw [if_pos h]; exact hx
  · rw [if_neg h]; exact hy

theorem lifts_next_c : Lifts next_c := by
  intro j l e t w r l1 e1 h
  cases j with
  | nil => simp [next_c] at h
  | cons c j =>
    simp only [next_c, Res.ok.injEq, State.mk.injEq, List.cons_append] at h ⊢
    obtain ⟨rfl, rfl, rfl, rfl⟩ := h
    exact ⟨rfl, rfl, rfl, rfl⟩

theorem lifts_expect_c (d : Nat) : Lifts (expect_c d) := by
  unfold expect_c
  exact lifts_bind lifts_next_c (fun c => lifts_ite _ (lifts_pure _) (lifts_die _))

theorem skip_ws_loop_lifts (json : List Nat) (c l : Nat) (e : List Diag) (t : List Nat) (v : Unit)
    (r : List Nat) (l1 : Nat) (e1 : List Diag)
    (h : skip_ws_loop c json l e = Res.ok v ⟨r, l1, e1⟩) :
    skip_ws_loop c (json ++ t) l e = Res.ok v ⟨r ++ t, l1, e1⟩ := by
  induction json generalizing c l with
  | nil =>
    rw [skip_ws_loop] at h
    by_cases hc : isspace c = true
    · rw [if_pos hc] at h; cases h
    · rw [if_neg hc] at h
      simp only [Res.ok.injEq, State.mk.injEq] at h
      obtain ⟨_, rfl, rfl, rfl⟩ := h
      cases t with
      | nil => simp [skip_ws_loop, hc]
      | cons a t => simp [skip_ws_loop, hc]
  | cons c1 rest ih =>
    rw [skip_ws_loop] at h
    rw [List.cons_append, skip_ws_loop]
    by_cases hc : isspace c = true
    · rw [if_pos hc] at h ⊢
      exact ih c1 _ h
    · rw [if_neg hc] at h ⊢
      simp only [Res.ok.injEq, State.mk.injEq] at h ⊢
      obtain ⟨_, rfl, rfl, rfl⟩ := h
      simp

theorem lifts_skip_ws : Lifts skip_ws := by
  intro j l e t w r l1 e1 h
  cases j with
  | nil => simp [skip_ws, next_c] at h
  | cons c j =>
    simp only [skip_ws, next_c, List.cons_append] at h ⊢
    exact skip_ws_loop_lifts j c _ e t w r l1 e1 h

theorem stops_skip_ws_bind {β : Type} (k : Unit → M β) : StopsAtEnd (skip_ws >>= k) := by
  intro l e v s1 h
  rw [bind_apply] at h
  simp [skip_ws, next_c] at h

theorem next_string_loop_lifts (json : List Nat) (c i : Nat) (buffer : List Nat) (l : Nat)
    (e : List Diag) (t : List Nat) (v : List Nat) (r : List Nat) (l1 : Nat) (e1 : List Diag)
    (h : next_string_loop c i buffer json l e = Res.ok v ⟨r, l1, e1⟩) :
    next_string_loop c i buffer (json ++ t) l e = Res.ok v ⟨r ++ t, l1, e1⟩ := by
  induction json generalizing c i buffer l with
  | nil =>
    rw [next_string_loop] at h
    by_cases h1 : c = 34
    · rw [if_pos h1] at h
      simp only [Res.ok.injEq, State.mk.injEq] at h
      obtain ⟨rfl, rfl, rfl, rfl⟩ := h
      cases t with
      | nil => simp [next_string_loop, h1]
      | cons a t => simp [next_string_loop, h1]
    rw [if_neg h1] at h
    by_cases h2 : i ≥ 128
    · rw [if_pos h2] at h; cases h
    rw [if_neg h2] at h
    by_cases h3 : c = 92
    · rw [if_pos h3] at h; cases h
    rw [if_neg h3] at h
    by_cases h4 : c < 32 ∨ c > 126
    · rw [if_pos h4] at h; cases h
    rw [if_neg h4] at h
    cases h
  | cons c1 rest ih =>
    rw [next_string_loop] at h
    rw [List.cons_append, next_string_loop]
    by_cases h1 : c = 34
    · rw [if_pos h1] at h ⊢
      simp only [Res.ok.injEq, State.mk.injEq] at h ⊢
      obtain ⟨rfl, rfl, rfl, rfl⟩ := h
      simp
    rw [if_neg h1] at h ⊢
    by_cases h2 : i ≥ 128
    · rw [if_pos h2] at h; cases h
    rw [if_neg h2] at h ⊢
    by_cases h3 : c = 92
    · rw [if_pos h3] at h; cases h
    rw [if_neg h3] at h ⊢
    by_cases h4 : c < 32 ∨ c > 126
    · rw [if_pos h4] at h; cases h
    rw [if_neg h4] at h ⊢
    exact ih c1 _ _ _ h

theorem lifts_next_string : Lifts next_string := by
  intro j l e t w r l1 e1 h
  cases j with
  | nil => simp [next_string, next_c] at h
  | cons c j =>
    simp only [next_string, next_c, List.cons_append] at h ⊢
    by_cases hq : c ≠ 34
    · rw [if_pos hq] at h; cases h
    rw [if_neg hq] at h ⊢
    cases j with
    | nil => simp at h
    | cons c2 j2 =>
      simp only [List.cons_append] at h ⊢
      exact next_string_loop_lifts j2 c2 0 [] _ e t w r l1 e1 h

theorem stage_comp {β γ : Type} (g : List Nat → β × List Nat)
    (F : β → List Nat → γ × List Nat) (hg : Stage g) (hF : ∀ a, Stage (F a)) :
    Stage (fun j => F (g j).1 (g j).2) := by
  constructor
  · simp only [hg.1]
    exact (hF _).1
  · intro j t h
    simp only at h ⊢
    have hgj : (g j).2 ≠ [] := by
      intro h0
      rw [h0] at h
      exact h (hF _).1
    rw [hg.2 j t hgj]
    simp only
    exact (hF _).2 _ t h

theorem stage_const {β : Type} (a : β) : Stage (fun j => (a, j)) :=
  ⟨rfl, fun _ _ _ => rfl⟩

theorem stage_span (p : Nat → Bool) : Stage (fun j => (j.takeWhile p, j.dropWhile p)) := by
  constructor
  · rfl
  · intro j t h
    simp only at h ⊢
    induction j with
    | nil => exact absurd rfl h
    | cons a j ih =>
      by_cases hp : p a = true
      · simp only [List.cons_append, List.takeWhile_cons_of_pos hp,
          List.dropWhile_cons_of_pos hp] at h ⊢
        have := ih h
        simp only [Prod.mk.injEq] at this ⊢
        exact ⟨by rw [this.1], this.2⟩
      · simp only [List.cons_append, List.takeWhile_cons_of_neg hp,
          List.dropWhile_cons_of_neg hp]

theorem stage_drop (p : Nat → Bool) : Stage (fun j => ((), j.dropWhile p)) := by
  constructor
  · rfl
  · intro j t h
    have := (stage_span p).2 j t h
    simp only [Prod.mk.injEq] at this ⊢
    exact ⟨trivial, this.2⟩

theorem stage_take_sign : Stage take_sign := by
  constructor
  · rfl
  · intro j t h
    cases j with
    | nil => exact absurd rfl h
    | cons c r =>
      by_cases hc : c = 43 ∨ c = 45
      · simp only [take_sign, if_pos hc, List.cons_append] at h ⊢
      · simp only [take_sign, if_neg hc, List.cons_append] at h ⊢

theorem stage_take_point : Stage take_point := by
  constructor
  · rfl
  · intro j t h
    cases j with
    | nil => exact absurd rfl h
    | cons c r =>
      by_cases hc : c = 46
      · simp only [take_point, if_pos hc, List.cons_append] at h ⊢
      · simp only [take_point, if_neg hc, List.cons_append] at h ⊢

theorem stage_exponent (m : List Nat) : Stage (scan_exponent m) := by
  constructor
  · rfl
  · intro j t h
    cases j with
    | nil => exact absurd rfl h
    | cons c r =>
      by_cases hc : c = 101 ∨ c = 69
      · simp only [scan_exponent, if_pos hc, List.cons_append] at h ⊢
        have hr6 : ((take_sign r).2.dropWhile isdigit) ≠ [] := by
          intro h0
          by_cases hd : (take_sign r).2.takeWhile isdigit = []
          · rw [if_pos hd] at h; exact h h0
          · rw [if_neg hd] at h; exact h h0
        have hr5 : (take_sign r).2 ≠ [] := by
          intro h0
          rw [h0] at hr6
          exact hr6 rfl
        have e1 := stage_take_sign.2 r t hr5
        have e2 := (stage_span isdigit).2 (take_sign r).2 t hr6
        simp only [Prod.mk.injEq] at e2
        rw [e1]
        simp only [e2.1, e2.2]
        by_cases hd : (take_sign r).2.takeWhile isdigit = []
        · simp only [if_pos hd]
        · simp only [if_neg hd]
      · simp only [scan_exponent, if_neg hc, List.cons_append] at h ⊢

theorem scan_float_eq (j : List Nat) :
    scan_float j =
      (fun r0 : List Nat =>
        (fun (sg r1 : List Nat) =>
          (fun (ip r2 : List Nat) =>
            (fun (pt r3 : List Nat) =>
              (fun (fp r4 : List Nat) =>
                if ip = [] ∧ fp = [] then ((none : Option (List Nat)), r4)
                else scan_exponent (sg ++ ip ++ pt ++ fp) r4)
              (if pt = [] then [] else r3.takeWhile isdigit)
              (if pt = [] then r3 else r3.dropWhile isdigit))
            (take_point r2).1 (take_point r2).2)
          (r1.takeWhile isdigit) (r1.dropWhile isdigit))
        (take_sign r0).1 (take_sign r0).2)
      (j.dropWhile isspace) := by
  unfold scan_float
  simp only
  split_ifs with h1 h2 h3
  · rfl
  · rfl
  · generalize (take_point (List.dropWhile isdigit (take_sign (List.dropWhile isspace j)).2)).2 = x
    cases x <;> rfl
  · generalize List.dropWhile isdigit
      (take_point (List.dropWhile isdigit (take_sign (List.dropWhile isspace j)).2)).2 = x
    cases x <;> rfl

theorem stage_scan_float : Stage scan_float := by
  have h4 : ∀ sg ip pt fp : List Nat, Stage (fun r4 : List Nat =>
      if ip = [] ∧ fp = [] then ((none : Option (List Nat)), r4)
      else scan_exponent (sg ++ ip ++ pt ++ fp) r4) := by
    intro sg ip pt fp
    by_cases hc : ip = [] ∧ fp = []
    · simp only [if_pos hc]; exact stage_const _
    · simp only [if_neg hc]; exact stage_exponent _
  have g3 : ∀ pt : List Nat, Stage (fun r3 : List Nat =>
      ((if pt = [] then [] else r3.takeWhile isdigit : List Nat),
        (if pt = [] then r3 else r3.dropWhile isdigit : List Nat))) := by
    intro pt
    by_cases hpt : pt = []
    · simp only [if_pos hpt]; exact stage_const _
    · simp only [if_neg hpt]; exact stage_span isdigit
  have h3 : ∀ sg ip pt : List Nat, Stage (fun r3 : List Nat =>
      if ip = [] ∧ (if pt = [] then [] else r3.takeWhile isdigit) = []
      then ((none : Option (List Nat)), (if pt = [] then r3 else r3.dropWhile isdigit))
      else scan_exponent (sg ++ ip ++ pt ++ (if pt = [] then [] else r3.takeWhile isdigit))
        (if pt = [] then r3 else r3.dropWhile isdigit)) :=
    fun sg ip pt => stage_comp _
      (fun fp r4 => if ip = [] ∧ fp = [] then ((none : Option (List Nat)), r4)
        else scan_exponent (sg ++ ip ++ pt ++ fp) r4) (g3 pt) (h4 sg ip pt)
  have h2 : ∀ sg ip : List Nat, Stage (fun r2 : List Nat =>
      if ip = [] ∧ (if (take_point r2).1 = [] then [] else (take_point r2).2.takeWhile isdigit) = []
      then ((none : Option (List Nat)),
        (if (take_point r2).1 = [] then (take_point r2).2
          else (take_point r2).2.dropWhile isdigit))
      else scan_exponent (sg ++ ip ++ (take_point r2).1 ++
          (if (take_point r2).1 = [] then [] else (take_point r2).2.takeWhile isdigit))
        (if (take_point r2).1 = [] then (take_point r2).2
          else (take_point r2).2.dropWhile isdigit)) :=
    fun sg ip => stage_comp take_point
      (fun pt r3 => if ip = [] ∧ (if pt = [] then [] else r3.takeWhile isdigit) = []
        then ((none : Option (List Nat)), (if pt = [] then r3 else r3.dropWhile isdigit))
        else scan_exponent (sg ++ ip ++ pt ++ (if pt = [] then [] else r3.takeWhile isdigit))
          (if pt = [] then r3 else r3.dropWhile isdigit)) stage_take_point (h3 sg ip)
  have h1 := fun sg : List Nat => stage_comp (fun j => (j.takeWhile isdigit, j.dropWhile isdigit))
    (fun ip r2 =>
      if ip = [] ∧ (if (take_point r2).1 = [] then [] else (take_point r2).2.takeWhile isdigit) = []
      then ((none : Option (List Nat)),
        (if (take_point r2).1 = [] then (take_point r2).2
          else (take_point r2).2.dropWhile isdigit))
      else scan_exponent (sg ++ ip ++ (take_point r2).1 ++
          (if (take_point r2).1 = [] then [] else (take_point r2).2.takeWhile isdigit))
        (if (take_point r2).1 = [] then (take_point r2).2
          else (take_point r2).2.dropWhile isdigit)) (stage_span isdigit) (h2 sg)
  have h0 := stage_comp take_sign _ stage_take_sign h1
  have hd := stage_comp _ (fun _ : Unit => _) (stage_drop isspace) (fun _ => h0)
  have heq : scan_float = _ := funext scan_float_eq
  rw [heq]
  exact hd

theorem lifts_some_next_number : LiftsSome next_number := by
  intro j l e t w r l1 e1 h hr
  unfold next_number at h ⊢
  simp only at h ⊢
  have hs : (scan_float j).2 = r := by
    rcases hsf : scan_float j with ⟨_ | text, rest⟩
    · rw [hsf] at h; simp only [Res.ok.injEq, State.mk.injEq] at h; exact h.2.1
    · rw [hsf] at h; simp only [Res.ok.injEq, State.mk.injEq] at h; exact h.2.1
  have happ := stage_scan_float.2 j t (by rw [hs]; exact hr)
  rw [happ, hs]
  rcases hsf : scan_float j with ⟨_ | text, rest⟩
  · rw [hsf] at h
    simp only [Res.ok.injEq, State.mk.injEq] at h ⊢
    obtain ⟨rfl, _, rfl, rfl⟩ := h
    simp
  · rw [hsf] at h
    simp only [Res.ok.injEq, State.mk.injEq] at h ⊢
    obtain ⟨rfl, _, rfl, rfl⟩ := h
    simp

theorem lifts_next_vector : Lifts next_vector := by
  unfold next_vector
  refine lifts_bind (lifts_expect_c _) (fun _ => ?_)
  refine lifts_bind lifts_skip_ws (fun _ => ?_)
  refine lifts_bind_some lifts_some_next_number (fun v0 => ?_) (fun _ => stops_skip_ws_bind _)
  refine lifts_bind lifts_skip_ws (fun _ => ?_)
  refine lifts_bind (lifts_expect_c _) (fun _ => ?_)
  refine lifts_bind lifts_skip_ws (fun _ => ?_)
  refine lifts_bind_some lifts_some_next_number (fun v1 => ?_) (fun _ => stops_skip_ws_bind _)
  refine lifts_bind lifts_skip_ws (fun _ => ?_)
  refine lifts_bind (lifts_expect_c _) (fun _ => ?_)
  refine lifts_bind lifts_skip_ws (fun _ => ?_)
  refine lifts_bind_some lifts_some_next_number (fun v2 => ?_) (fun _ => stops_skip_ws_bind _)
  refine lifts_bind lifts_skip_ws (fun _ => ?_)
  refine lifts_bind (lifts_expect_c _) (fun _ => ?_)
  exact lifts_pure _

theorem lifts_some_map {α β : Type} {x : M α} (hx : LiftsSome x) (u : β) :
    LiftsSome (x >>= fun _ => (pure u : M β)) := by
  intro j l e t w r l1 e1 h hr
  rw [bind_apply] at h
  cases hxs : x ⟨j, l, e⟩ with
  | ok v s1 =>
    obtain ⟨r0, l0, e0⟩ := s1
    rw [hxs] at h
    simp only [pure_apply, Res.ok.injEq, State.mk.injEq] at h
    obtain ⟨rfl, rfl, rfl, rfl⟩ := h
    rw [bind_ok _ (hx j l e t v r0 l0 e0 hxs hr)]
    rfl
  | exit d s1 => rw [hxs] at h; cases h
  | unfinished => rw [hxs] at h; cases h

theorem lifts_some_read_value (key : List Nat) : LiftsSome (read_value key) := by
  unfold read_value
  by_cases h1 : key = bytes "width" ∨ key = bytes "height" ∨ key = bytes "radius"
  · rw [if_pos h1]
    exact lifts_some_map lifts_some_next_number ()
  · rw [if_neg h1]
    by_cases h2 : key = bytes "color" ∨ key = bytes "position" ∨ key = bytes "normal"
    · rw [if_pos h2]
      exact lifts_some (lifts_bind lifts_next_vector (fun _ => lifts_pure _))
    · rw [if_neg h2]
      exact lifts_some (lifts_report _)

theorem lifts_read_fields (fuel : Nat) : Lifts (read_fields fuel) := by
  induction fuel with
  | zero =>
    intro j l e t w r l1 e1 h
    simp [read_fields] at h
  | succ f ih =>
    rw [read_fields]
    refine lifts_bind lifts_next_c (fun c => ?_)
    refine lifts_ite _ (lifts_pure _) (lifts_ite _ ?_ (lifts_die _))
    refine lifts_bind lifts_skip_ws (fun _ => ?_)
    refine lifts_bind lifts_next_string (fun key => ?_)
    refine lifts_bind lifts_skip_ws (fun _ => ?_)
    refine lifts_bind (lifts_expect_c _) (fun _ => ?_)
    refine lifts_bind lifts_skip_ws (fun _ => ?_)
    refine lifts_bind_some (lifts_some_read_value key) (fun _ => ?_)
      (fun _ => stops_skip_ws_bind _)
    exact lifts_bind lifts_skip_ws (fun _ => ih)

theorem lifts_read_type : Lifts read_type := by
  unfold read_type
  refine lifts_bind lifts_next_string (fun value => ?_)
  exact lifts_ite _ (lifts_pure _) (lifts_ite _ (lifts_pure _)
    (lifts_ite _ (lifts_pure _) (lifts_die _)))

theorem lifts_read_objects (fuel : Nat) : Lifts (read_objects fuel) := by
  induction fuel with
  | zero =>
    intro j l e t w r l1 e1 h
    simp [read_objects] at h
  | succ f ih =>
    intro j l e t w r l1 e1 h
    cases j with
    | nil =>
      rw [read_objects_at_end] at h
      cases h
    | cons c j =>
      rw [read_objects, bind_ok _ (fgetc_cons c j l e)] at h
      rw [List.cons_append, read_objects, bind_ok _ (fgetc_cons c (j ++ t) l e)]
      revert h
      refine (?_ : Lifts _) j l e t w r l1 e1
      refine lifts_ite _ (lifts_report _) (lifts_ite _ ?_ ih)
      refine lifts_bind lifts_skip_ws (fun _ => ?_)
      refine lifts_bind lifts_next_string (fun key => ?_)
      refine lifts_ite _ (lifts_die _) ?_
      refine lifts_bind lifts_skip_ws (fun _ => ?_)
      refine lifts_bind (lifts_expect_c _) (fun _ => ?_)
      refine lifts_bind lifts_skip_ws (fun _ => ?_)
      refine lifts_bind lifts_read_type (fun _ => ?_)
      refine lifts_bind lifts_skip_ws (fun _ => ?_)
      refine lifts_bind (lifts_read_fields f) (fun _ => ?_)
      refine lifts_bind lifts_skip_ws (fun _ => ?_)
      refine lifts_bind lifts_next_c (fun c2 => ?_)
      refine lifts_ite _ (lifts_bind lifts_skip_ws (fun _ => ih)) ?_
      exact lifts_ite _ (lifts_pure _) (lifts_die _)

/-- Claim C19: when `read_scene` returns on the input `s`, it returns in the
same way on `s ++ t` for every `t`, with the same `line` and the same
messages, and `t` is left unread behind what `s` left unread: nothing after
the closing `]` is looked at. -/
theorem read_scene_ignores_what_follows (fuel : Nat) (s t r : List Nat) (l : Nat)
    (e : List Diag) (h : read_scene fuel (some s) = Res.ok () ⟨r, l, e⟩) :
    read_scene fuel (some (s ++ t)) = Res.ok () ⟨r ++ t, l, e⟩ := by
  unfold read_scene at h ⊢
  simp only at h ⊢
  revert h
  refine (?_ : Lifts _) s 1 [] t () r l e
  refine lifts_bind lifts_skip_ws (fun _ => ?_)
  refine lifts_bind (lifts_expect_c _) (fun _ => ?_)
  exact lifts_bind lifts_skip_ws (fun _ => lifts_read_objects fuel)

theorem read_scene_ignores_what_follows_witness :
    read_scene 3 (some (bytes "[\x7b\"type\":\"plane\",\"radius\":1\x7d]" ++ bytes "]] junk"))
      = Res.ok () ⟨[] ++ bytes "]] junk", 1, []⟩ :=
  read_scene_ignores_what_follows 3 (bytes "[\x7b\"type\":\"plane\",\"radius\":1\x7d]")
    (bytes "]] junk") [] 1 [] (by decide!)

end Raycaster

